import Mathlib

/-!
# Havok tagfile chunks and generated adapters

A shallow embedding of `include/hkPhysicsChunks.h` (the chunk classes, their
`GetType`/`Decode` overrides and `Traverse`) and of
`src/Generated/hclBoneSpaceSkinPNOperator.cpp` (the generated adapter's
`FromInstance`/`ToInstance`), followed by the theorems about them.

Conventions.
* A `uint8_t` is a `Byte` (`Fin 256`); a `std::string` filled from a buffer is
  the list of its bytes. The names that the code compares with string literals
  (type names, field names, tags) are `String`s.
* `uint16_t`/`uint32_t` members are `Nat`s; conversions to a machine width are
  written out as `% 2 ^ w`.
* A pointer to a buffer is `Option (List Byte)`: `none` is `nullptr`, `some b`
  points at an allocation holding exactly the bytes `b`. A pointer to an
  instance is `Option hkClassInstance` in the same way.
* A call ends in an `Outcome`: it returns a `bool`, leaves through a `throw;`,
  or runs into undefined behaviour (a null dereference, a read outside the
  allocation), which the embedding records as `fault` and never continues past.
* Code that the two source files use and do not define is either a parameter
  (`Collaborators`) or a definition marked `Modelled from the spec`.
-/

/-- A `uint8_t`. -/
abbrev Byte := Fin 256

/-- How a call ends. -/
inductive Outcome where
  /-- the call returned this `bool` -/
  | returned (value : Bool)
  /-- the call printed `message` on `std::cout` and executed `throw;` -/
  | threw (message : String)
  /-- the call dereferenced a null pointer or read outside its buffer -/
  | fault
  /-- the embedding's loop budget ran out before the loop condition failed -/
  | outOfFuel
  deriving DecidableEq, Repr

namespace hkphysics

/-- The enumeration `ChunkType`; `Unknown` is `-1`, the others count up from `0`. -/
inductive ChunkType where
  | Unknown
  | TAG0 | SDKV | DATA | TYPE | TPTR | TST1 | TNA1
  | FST1 | TBDY | THSH | TPAD | INDX | ITEM | PTCH
  deriving DecidableEq, Repr

/-- The underlying integer of an enumerator of `ChunkType`. -/
def ChunkType.toInt : ChunkType → Int
  | .Unknown => -1
  | .TAG0 => 0
  | .SDKV => 1
  | .DATA => 2
  | .TYPE => 3
  | .TPTR => 4
  | .TST1 => 5
  | .TNA1 => 6
  | .FST1 => 7
  | .TBDY => 8
  | .THSH => 9
  | .TPAD => 10
  | .INDX => 11
  | .ITEM => 12
  | .PTCH => 13

/-- The 14 enumerators other than `Unknown`, in the order of the enumeration. -/
def ChunkType.known : List ChunkType :=
  [.TAG0, .SDKV, .DATA, .TYPE, .TPTR, .TST1, .TNA1, .FST1, .TBDY, .THSH, .TPAD, .INDX,
   .ITEM, .PTCH]

/-- The tag vocabulary of the specification, in its order. -/
def tagVocabulary : List String :=
  ["TAG0", "SDKV", "DATA", "TYPE", "TPTR", "TST1", "TNA1", "FST1", "TBDY", "THSH", "TPAD",
   "INDX", "ITEM", "PTCH"]

/-- Modelled from the spec: `GetChunkTypeName(type)`, which the header declares
and the sources do not define. The specification has the kind model map "a
4-byte tag name to a kind and back" over the vocabulary `TAG0, SDKV, DATA,
TYPE, TPTR, TST1, TNA1, FST1, TBDY, THSH, TPAD, INDX, ITEM, PTCH`; it names no
tag for `Unknown`, for which the model gives the empty view. -/
def GetChunkTypeName : ChunkType → String
  | .Unknown => ""
  | .TAG0 => "TAG0"
  | .SDKV => "SDKV"
  | .DATA => "DATA"
  | .TYPE => "TYPE"
  | .TPTR => "TPTR"
  | .TST1 => "TST1"
  | .TNA1 => "TNA1"
  | .FST1 => "FST1"
  | .TBDY => "TBDY"
  | .THSH => "THSH"
  | .TPAD => "TPAD"
  | .INDX => "INDX"
  | .ITEM => "ITEM"
  | .PTCH => "PTCH"

/-- Modelled from the spec: `ChunkTypeFromName(name)`, which the header declares
and the sources do not define. The specification: a tag of the vocabulary
gives its kind, and "any other 4-byte tag decodes to `Unknown`". -/
def ChunkTypeFromName (name : String) : ChunkType :=
  if name = "TAG0" then .TAG0
  else if name = "SDKV" then .SDKV
  else if name = "DATA" then .DATA
  else if name = "TYPE" then .TYPE
  else if name = "TPTR" then .TPTR
  else if name = "TST1" then .TST1
  else if name = "TNA1" then .TNA1
  else if name = "FST1" then .FST1
  else if name = "TBDY" then .TBDY
  else if name = "THSH" then .THSH
  else if name = "TPAD" then .TPAD
  else if name = "INDX" then .INDX
  else if name = "ITEM" then .ITEM
  else if name = "PTCH" then .PTCH
  else .Unknown

/-- The members of an `hkDataChunkTAG0` object, those inherited from
`hkDataChunkBase` included, with their default member initialisers. The
`children` vector is kept in the tree node (`hkDataChunkBase.node`). -/
structure hkDataChunkTAG0 where
  /-- Member `uint16_t chunk_decorator = -1` -/
  chunk_decorator : Nat := 0xFFFF
  /-- Member `uint16_t data_size = 0` -/
  data_size : Nat := 0
  /-- Member `char type_name[4] = { 0 }` -/
  type_name : List Byte := [0, 0, 0, 0]
  /-- Member `const uint8_t* _buffer = nullptr` -/
  _buffer : Option (List Byte) := none
  /-- Member `uint32_t _buffer_size = 0` -/
  _buffer_size : Nat := 0
  deriving DecidableEq, Repr

/-- The accessor `GetBuffer()`. -/
def hkDataChunkTAG0.GetBuffer (c : hkDataChunkTAG0) : Option (List Byte) :=
  c._buffer

/-- The accessor `GetBufferSize()`. -/
def hkDataChunkTAG0.GetBufferSize (c : hkDataChunkTAG0) : Nat :=
  c._buffer_size

/-- The method `GetActualDataSize()`: `data_size - 8` is computed in `int` (the `uint16_t`
is promoted) and the result converted to `uint32_t`. -/
def hkDataChunkTAG0.GetActualDataSize (c : hkDataChunkTAG0) : Nat :=
  ((((c.data_size % 2 ^ 16 : Nat) : Int) - 8) % 2 ^ 32).toNat

/-- The method `SetBuffer(buffer, buffer_size)`; the size parameter is a `uint32_t`. -/
def hkDataChunkTAG0.SetBuffer (c : hkDataChunkTAG0) (buffer : Option (List Byte))
    (buffer_size : Nat) : hkDataChunkTAG0 :=
  { c with _buffer := buffer, _buffer_size := buffer_size % 2 ^ 32 }

/-- The method `hkDataChunkTAG0::Decode()`: returns `true` and touches nothing. -/
def hkDataChunkTAG0.Decode (c : hkDataChunkTAG0) : Outcome × hkDataChunkTAG0 :=
  (Outcome.returned true, c)

/-- An `hkDataChunkTST1` object: the `hkDataChunkTAG0` members and `type_names`. -/
structure hkDataChunkTST1 extends hkDataChunkTAG0 where
  /-- Member `std::vector<std::string> type_names` -/
  type_names : List (List Byte) := []
  deriving DecidableEq, Repr

/-- The method `SetBuffer` on a TST1 chunk (inherited from `hkDataChunkTAG0`). -/
def hkDataChunkTST1.SetBuffer (c : hkDataChunkTST1) (buffer : Option (List Byte))
    (buffer_size : Nat) : hkDataChunkTST1 :=
  { c with tohkDataChunkTAG0 := c.tohkDataChunkTAG0.SetBuffer buffer buffer_size }

/-- The `while (cur_pos < GetBufferSize())` loop of `hkDataChunkTST1::Decode`.
The arguments after the budget are the loop's variables: `cur_pos`, the local
`type_name` and the member `type_names`. Each round tests the loop condition,
reads `_buffer[cur_pos]`, pushes the finished name on a zero byte or the byte
onto the current name otherwise, and increments `cur_pos`. The result carries
`type_names` as it stands when the loop stops. -/
def hkDataChunkTST1.DecodeLoop (_buffer : Option (List Byte)) (buffer_size : Nat) :
    Nat → Nat → List Byte → List (List Byte) → Outcome × List (List Byte)
  | 0, cur_pos, _, type_names =>
    if cur_pos < buffer_size then (Outcome.outOfFuel, type_names)
    else (Outcome.returned true, type_names)
  | fuel + 1, cur_pos, type_name, type_names =>
    if cur_pos < buffer_size then
      match _buffer with
      | none => (Outcome.fault, type_names)
      | some buf =>
        match buf[cur_pos]? with
        | none => (Outcome.fault, type_names)
        | some b =>
          if b = 0 then
            hkDataChunkTST1.DecodeLoop _buffer buffer_size fuel (cur_pos + 1) []
              (type_names ++ [type_name])
          else
            hkDataChunkTST1.DecodeLoop _buffer buffer_size fuel (cur_pos + 1)
              (type_name ++ [b]) type_names
    else (Outcome.returned true, type_names)

/-- The method `hkDataChunkTST1::Decode()`: the loop started at `cur_pos = 8` with an empty
`type_name`, then `return true`. The loop runs at most `GetBufferSize()` rounds,
which is the budget given to it. -/
def hkDataChunkTST1.Decode (c : hkDataChunkTST1) : Outcome × hkDataChunkTST1 :=
  let r := hkDataChunkTST1.DecodeLoop c._buffer c.GetBufferSize c.GetBufferSize 8 []
    c.type_names
  (r.1, { c with type_names := r.2 })

/-- An `hkDataChunkSDKV` object: the `hkDataChunkTAG0` members and `sdk_version`. -/
structure hkDataChunkSDKV extends hkDataChunkTAG0 where
  /-- Member `std::string sdk_version` -/
  sdk_version : List Byte := []
  deriving DecidableEq, Repr

/-- Modelled from the spec: the scan of `Util::readStringFromBuffer`, whose
definition is not among the sources. The specification gives its rule: bytes
are scanned from a start offset "until either a NUL terminator or a supplied
maximum length is reached, whichever comes first". The first argument is the
number of bytes that may still be taken, then the position and the bytes taken
so far. `none` is a read through a null pointer or outside the allocation. -/
def Util.readStringScan (buffer : Option (List Byte)) :
    Nat → Nat → List Byte → Option (List Byte)
  | 0, _, taken => some taken
  | left + 1, pos, taken =>
    match buffer with
    | none => none
    | some buf =>
      match buf[pos]? with
      | none => none
      | some b => if b = 0 then some taken else Util.readStringScan buffer left (pos + 1) (taken ++ [b])

/-- Modelled from the spec: `Util::readStringFromBuffer(buffer, offset, max_len)`,
declared outside the sources; it scans from `offset` and takes at most `max_len`
bytes, stopping before the first zero byte. -/
def Util.readStringFromBuffer (buffer : Option (List Byte)) (offset max_len : Nat) :
    Option (List Byte) :=
  Util.readStringScan buffer max_len offset []

/-- The method `hkDataChunkSDKV::Decode()`: `cur_pos = 8`, then `sdk_version` is assigned
what `Util::readStringFromBuffer(_buffer, cur_pos, GetActualDataSize())` gives,
then `return true`. -/
def hkDataChunkSDKV.Decode (c : hkDataChunkSDKV) : Outcome × hkDataChunkSDKV :=
  match Util.readStringFromBuffer c._buffer 8 c.GetActualDataSize with
  | none => (Outcome.fault, c)
  | some s => (Outcome.returned true, { c with sdk_version := s })

/-- The 14 concrete classes derived from `hkDataChunkBase`. -/
inductive ChunkClass where
  | hkDataChunkTAG0 | hkDataChunkSDKV | hkDataChunkDATA | hkDataChunkTYPE
  | hkDataChunkTPTR | hkDataChunkTST1 | hkDataChunkTNA1 | hkDataChunkFST1
  | hkDataChunkTBDY | hkDataChunkTHSH | hkDataChunkTPAD | hkDataChunkINDX
  | hkDataChunkITEM | hkDataChunkPTCH
  deriving DecidableEq, Repr

/-- The `GetType()` override of each class; each returns a constant. -/
def ChunkClass.GetType : ChunkClass → ChunkType
  | .hkDataChunkTAG0 => ChunkType.TAG0
  | .hkDataChunkSDKV => ChunkType.SDKV
  | .hkDataChunkDATA => ChunkType.DATA
  | .hkDataChunkTYPE => ChunkType.TYPE
  | .hkDataChunkTPTR => ChunkType.TPTR
  | .hkDataChunkTST1 => ChunkType.TST1
  | .hkDataChunkTNA1 => ChunkType.TNA1
  | .hkDataChunkFST1 => ChunkType.FST1
  | .hkDataChunkTBDY => ChunkType.TBDY
  | .hkDataChunkTHSH => ChunkType.THSH
  | .hkDataChunkTPAD => ChunkType.TPAD
  | .hkDataChunkINDX => ChunkType.INDX
  | .hkDataChunkITEM => ChunkType.ITEM
  | .hkDataChunkPTCH => ChunkType.PTCH

/-- All classes, in the order of their declaration in the header. -/
def ChunkClass.all : List ChunkClass :=
  [.hkDataChunkTAG0, .hkDataChunkSDKV, .hkDataChunkDATA, .hkDataChunkTYPE,
   .hkDataChunkTPTR, .hkDataChunkTST1, .hkDataChunkTNA1, .hkDataChunkFST1,
   .hkDataChunkTBDY, .hkDataChunkTHSH, .hkDataChunkTPAD, .hkDataChunkINDX,
   .hkDataChunkITEM, .hkDataChunkPTCH]

/-- A chunk object by its dynamic class, with the members that class has:
`hkDataChunkSDKV` and `hkDataChunkTST1` add a member to those of
`hkDataChunkTAG0`, the other classes add none. -/
inductive ChunkObject where
  | TAG0 (c : hkDataChunkTAG0)
  | SDKV (c : hkDataChunkSDKV)
  | DATA (c : hkDataChunkTAG0)
  | TYPE (c : hkDataChunkTAG0)
  | TPTR (c : hkDataChunkTAG0)
  | TST1 (c : hkDataChunkTST1)
  | TNA1 (c : hkDataChunkTAG0)
  | FST1 (c : hkDataChunkTAG0)
  | TBDY (c : hkDataChunkTAG0)
  | THSH (c : hkDataChunkTAG0)
  | TPAD (c : hkDataChunkTAG0)
  | INDX (c : hkDataChunkTAG0)
  | ITEM (c : hkDataChunkTAG0)
  | PTCH (c : hkDataChunkTAG0)
  deriving DecidableEq, Repr

/-- The dynamic class of a chunk object. -/
def ChunkObject.cls : ChunkObject → ChunkClass
  | .TAG0 _ => .hkDataChunkTAG0
  | .SDKV _ => .hkDataChunkSDKV
  | .DATA _ => .hkDataChunkDATA
  | .TYPE _ => .hkDataChunkTYPE
  | .TPTR _ => .hkDataChunkTPTR
  | .TST1 _ => .hkDataChunkTST1
  | .TNA1 _ => .hkDataChunkTNA1
  | .FST1 _ => .hkDataChunkFST1
  | .TBDY _ => .hkDataChunkTBDY
  | .THSH _ => .hkDataChunkTHSH
  | .TPAD _ => .hkDataChunkTPAD
  | .INDX _ => .hkDataChunkINDX
  | .ITEM _ => .hkDataChunkITEM
  | .PTCH _ => .hkDataChunkPTCH

/-- The virtual call `GetType()` on an object: the override of its class. -/
def ChunkObject.GetType (o : ChunkObject) : ChunkType :=
  o.cls.GetType

/-- A chunk in the tree that the `children` vectors span: the object's address
(what a `hkDataChunkBase*` to it holds), the object, and the chunks its
`children` vector points to, in the vector's order. -/
inductive hkDataChunkBase where
  | node (self : Nat) (object : ChunkObject) (children : List hkDataChunkBase)

/-- The address of a chunk. -/
def hkDataChunkBase.self : hkDataChunkBase → Nat
  | .node self _ _ => self

/-- The member `children`. -/
def hkDataChunkBase.children : hkDataChunkBase → List hkDataChunkBase
  | .node _ _ children => children

mutual
/-- The method `Traverse(pre_order_function, post_order_function)`. A callback is handed
the chunk and acts on some state `σ` of the caller, which is threaded through:
first `pre_order_function(this)`, then the loop over `children`, then
`post_order_function(this)`. The default arguments of the C++ method are
callbacks that do nothing. -/
def hkDataChunkBase.Traverse {σ : Type} (pre_order_function post_order_function :
    hkDataChunkBase → σ → σ) : hkDataChunkBase → σ → σ
  | .node self object children, s =>
    post_order_function (.node self object children)
      (hkDataChunkBase.TraverseChildren pre_order_function post_order_function children
        (pre_order_function (.node self object children) s))
/-- The loop `for (auto child : this->children) child->Traverse(pre, post)`. -/
def hkDataChunkBase.TraverseChildren {σ : Type} (pre_order_function post_order_function :
    hkDataChunkBase → σ → σ) : List hkDataChunkBase → σ → σ
  | [], s => s
  | child :: rest, s =>
    hkDataChunkBase.TraverseChildren pre_order_function post_order_function rest
      (hkDataChunkBase.Traverse pre_order_function post_order_function child s)
end

/-- A call that `Traverse` makes on one of its two callbacks. -/
inductive Call where
  | pre (chunk : hkDataChunkBase)
  | post (chunk : hkDataChunkBase)

/-- Performs a recorded call with the given callbacks. -/
def Call.run {σ : Type} (pre_order_function post_order_function : hkDataChunkBase → σ → σ) :
    Call → σ → σ
  | .pre chunk, s => pre_order_function chunk s
  | .post chunk, s => post_order_function chunk s

/-- The chunk of a call on `pre_order_function`. -/
def Call.preChunk : Call → Option hkDataChunkBase
  | .pre chunk => some chunk
  | .post _ => none

/-- The chunk of a call on `post_order_function`. -/
def Call.postChunk : Call → Option hkDataChunkBase
  | .pre _ => none
  | .post chunk => some chunk

/-- The calls that `Traverse` makes, in order: the traversal run with callbacks
that append their call to a log. -/
def hkDataChunkBase.calls (t : hkDataChunkBase) : List Call :=
  t.Traverse (fun chunk log => log ++ [Call.pre chunk]) (fun chunk log => log ++ [Call.post chunk]) []

/-- The calls made by the loop over a list of children. -/
def hkDataChunkBase.callsList (ts : List hkDataChunkBase) : List Call :=
  hkDataChunkBase.TraverseChildren (fun chunk log => log ++ [Call.pre chunk])
    (fun chunk log => log ++ [Call.post chunk]) ts []

mutual
/-- The pre-order listing of a tree: a chunk before its children's subtrees,
the children in their stored order. -/
def hkDataChunkBase.preorder : hkDataChunkBase → List hkDataChunkBase
  | .node self object children =>
    .node self object children :: hkDataChunkBase.preorderList children
/-- The pre-order listing of a list of trees. -/
def hkDataChunkBase.preorderList : List hkDataChunkBase → List hkDataChunkBase
  | [] => []
  | child :: rest => hkDataChunkBase.preorder child ++ hkDataChunkBase.preorderList rest
end

mutual
/-- The post-order listing of a tree: a chunk after its children's subtrees,
the children in their stored order. -/
def hkDataChunkBase.postorder : hkDataChunkBase → List hkDataChunkBase
  | .node self object children =>
    hkDataChunkBase.postorderList children ++ [.node self object children]
/-- The post-order listing of a list of trees. -/
def hkDataChunkBase.postorderList : List hkDataChunkBase → List hkDataChunkBase
  | [] => []
  | child :: rest => hkDataChunkBase.postorder child ++ hkDataChunkBase.postorderList rest
end

/-- The proper descendants of a chunk: the chunks of its children's subtrees. -/
def hkDataChunkBase.descendants (t : hkDataChunkBase) : List hkDataChunkBase :=
  hkDataChunkBase.preorderList t.children

/-- In `calls`, an occurrence of `a` comes before an occurrence of `b`. -/
def Before (a b : Call) (calls : List Call) : Prop :=
  ∃ l₁ l₂ l₃, calls = l₁ ++ a :: l₂ ++ b :: l₃

/-- A small tree with four chunks at distinct addresses: a TAG0 root holding an
SDKV chunk and a DATA chunk, the latter holding a TST1 chunk. -/
def sampleTree : hkDataChunkBase :=
  .node 0 (.TAG0 {})
    [.node 1 (.SDKV {}) [],
     .node 2 (.DATA {}) [.node 3 (.TST1 {}) []]]

/-- The bytes of a list of names, each followed by one zero byte. -/
def zeroTerminated : List (List Byte) → List Byte
  | [] => []
  | name :: names => name ++ 0 :: zeroTerminated names

/-- What the TST1 loop appends while it walks over `rest` with the current name
`acc`: a name is finished at every zero byte. -/
def splitAtZeros : List Byte → List Byte → List (List Byte)
  | _, [] => []
  | acc, b :: rest => if b = 0 then acc :: splitAtZeros [] rest else splitAtZeros (acc ++ [b]) rest

/-- The method `ReleaseBuffer()`: when `_buffer` is not null the array is deleted
and `_buffer` set to `nullptr`; no other member is assigned. The heap itself is
not part of the state. -/
def hkDataChunkTAG0.ReleaseBuffer (c : hkDataChunkTAG0) : hkDataChunkTAG0 :=
  match c._buffer with
  | some _ => { c with _buffer := none }
  | none => c

/-- The method `ReleaseBuffer()` on an SDKV chunk (inherited from `hkDataChunkTAG0`). -/
def hkDataChunkSDKV.ReleaseBuffer (c : hkDataChunkSDKV) : hkDataChunkSDKV :=
  { c with tohkDataChunkTAG0 := c.tohkDataChunkTAG0.ReleaseBuffer }

/-- The method `ReleaseBuffer()` on a TST1 chunk (inherited from `hkDataChunkTAG0`). -/
def hkDataChunkTST1.ReleaseBuffer (c : hkDataChunkTST1) : hkDataChunkTST1 :=
  { c with tohkDataChunkTAG0 := c.tohkDataChunkTAG0.ReleaseBuffer }

/-- The method `hkDataChunkDATA::Decode()`: `return true`. The class adds no member
to those of `hkDataChunkTAG0`. -/
def hkDataChunkDATA.Decode (c : hkDataChunkTAG0) : Outcome × hkDataChunkTAG0 :=
  (Outcome.returned true, c)

/-- The method `hkDataChunkTYPE::Decode()`: `return true`. The class adds no member
to those of `hkDataChunkTAG0`. -/
def hkDataChunkTYPE.Decode (c : hkDataChunkTAG0) : Outcome × hkDataChunkTAG0 :=
  (Outcome.returned true, c)

/-- The method `hkDataChunkTPTR::Decode()`: `return true`. The class adds no member
to those of `hkDataChunkTAG0`. -/
def hkDataChunkTPTR.Decode (c : hkDataChunkTAG0) : Outcome × hkDataChunkTAG0 :=
  (Outcome.returned true, c)

/-- The method `hkDataChunkTNA1::Decode()`: `return true`. The class adds no member
to those of `hkDataChunkTAG0`. -/
def hkDataChunkTNA1.Decode (c : hkDataChunkTAG0) : Outcome × hkDataChunkTAG0 :=
  (Outcome.returned true, c)

/-- The method `hkDataChunkFST1::Decode()`: `return true`. The class adds no member
to those of `hkDataChunkTAG0`. -/
def hkDataChunkFST1.Decode (c : hkDataChunkTAG0) : Outcome × hkDataChunkTAG0 :=
  (Outcome.returned true, c)

/-- The method `hkDataChunkTBDY::Decode()`: `return true`. The class adds no member
to those of `hkDataChunkTAG0`. -/
def hkDataChunkTBDY.Decode (c : hkDataChunkTAG0) : Outcome × hkDataChunkTAG0 :=
  (Outcome.returned true, c)

/-- The method `hkDataChunkTHSH::Decode()`: `return true`. The class adds no member
to those of `hkDataChunkTAG0`. -/
def hkDataChunkTHSH.Decode (c : hkDataChunkTAG0) : Outcome × hkDataChunkTAG0 :=
  (Outcome.returned true, c)

/-- The method `hkDataChunkTPAD::Decode()`: `return true`. The class adds no member
to those of `hkDataChunkTAG0`. -/
def hkDataChunkTPAD.Decode (c : hkDataChunkTAG0) : Outcome × hkDataChunkTAG0 :=
  (Outcome.returned true, c)

/-- The method `hkDataChunkINDX::Decode()`: `return true`. The class adds no member
to those of `hkDataChunkTAG0`. -/
def hkDataChunkINDX.Decode (c : hkDataChunkTAG0) : Outcome × hkDataChunkTAG0 :=
  (Outcome.returned true, c)

/-- The method `hkDataChunkITEM::Decode()`: `return true`. The class adds no member
to those of `hkDataChunkTAG0`. -/
def hkDataChunkITEM.Decode (c : hkDataChunkTAG0) : Outcome × hkDataChunkTAG0 :=
  (Outcome.returned true, c)

/-- The method `hkDataChunkPTCH::Decode()`: `return true`. The class adds no member
to those of `hkDataChunkTAG0`. -/
def hkDataChunkPTCH.Decode (c : hkDataChunkTAG0) : Outcome × hkDataChunkTAG0 :=
  (Outcome.returned true, c)

/-- The `hkDataChunkTAG0` subobject of a chunk object. -/
def ChunkObject.tag0 : ChunkObject → hkDataChunkTAG0
  | .TAG0 c => c
  | .SDKV c => c.tohkDataChunkTAG0
  | .DATA c => c
  | .TYPE c => c
  | .TPTR c => c
  | .TST1 c => c.tohkDataChunkTAG0
  | .TNA1 c => c
  | .FST1 c => c
  | .TBDY c => c
  | .THSH c => c
  | .TPAD c => c
  | .INDX c => c
  | .ITEM c => c
  | .PTCH c => c

/-- The decoded member `sdk_version`, which only an SDKV chunk has. -/
def ChunkObject.sdk_version : ChunkObject → Option (List Byte)
  | .SDKV c => some c.sdk_version
  | _ => none

/-- The decoded member `type_names`, which only a TST1 chunk has. -/
def ChunkObject.type_names : ChunkObject → Option (List (List Byte))
  | .TST1 c => some c.type_names
  | _ => none

/-- The method `ReleaseBuffer()` called on an object of any of the classes; it is
not virtual and acts on the `hkDataChunkTAG0` subobject. -/
def ChunkObject.ReleaseBuffer : ChunkObject → ChunkObject
  | .TAG0 c => .TAG0 c.ReleaseBuffer
  | .SDKV c => .SDKV c.ReleaseBuffer
  | .DATA c => .DATA c.ReleaseBuffer
  | .TYPE c => .TYPE c.ReleaseBuffer
  | .TPTR c => .TPTR c.ReleaseBuffer
  | .TST1 c => .TST1 c.ReleaseBuffer
  | .TNA1 c => .TNA1 c.ReleaseBuffer
  | .FST1 c => .FST1 c.ReleaseBuffer
  | .TBDY c => .TBDY c.ReleaseBuffer
  | .THSH c => .THSH c.ReleaseBuffer
  | .TPAD c => .TPAD c.ReleaseBuffer
  | .INDX c => .INDX c.ReleaseBuffer
  | .ITEM c => .ITEM c.ReleaseBuffer
  | .PTCH c => .PTCH c.ReleaseBuffer

/-- The virtual call `Decode()` on an object: the override of its class. -/
def ChunkObject.Decode : ChunkObject → Outcome × ChunkObject
  | .TAG0 c => ((hkDataChunkTAG0.Decode c).1, .TAG0 (hkDataChunkTAG0.Decode c).2)
  | .SDKV c => ((hkDataChunkSDKV.Decode c).1, .SDKV (hkDataChunkSDKV.Decode c).2)
  | .DATA c => ((hkDataChunkDATA.Decode c).1, .DATA (hkDataChunkDATA.Decode c).2)
  | .TYPE c => ((hkDataChunkTYPE.Decode c).1, .TYPE (hkDataChunkTYPE.Decode c).2)
  | .TPTR c => ((hkDataChunkTPTR.Decode c).1, .TPTR (hkDataChunkTPTR.Decode c).2)
  | .TST1 c => ((hkDataChunkTST1.Decode c).1, .TST1 (hkDataChunkTST1.Decode c).2)
  | .TNA1 c => ((hkDataChunkTNA1.Decode c).1, .TNA1 (hkDataChunkTNA1.Decode c).2)
  | .FST1 c => ((hkDataChunkFST1.Decode c).1, .FST1 (hkDataChunkFST1.Decode c).2)
  | .TBDY c => ((hkDataChunkTBDY.Decode c).1, .TBDY (hkDataChunkTBDY.Decode c).2)
  | .THSH c => ((hkDataChunkTHSH.Decode c).1, .THSH (hkDataChunkTHSH.Decode c).2)
  | .TPAD c => ((hkDataChunkTPAD.Decode c).1, .TPAD (hkDataChunkTPAD.Decode c).2)
  | .INDX c => ((hkDataChunkINDX.Decode c).1, .INDX (hkDataChunkINDX.Decode c).2)
  | .ITEM c => ((hkDataChunkITEM.Decode c).1, .ITEM (hkDataChunkITEM.Decode c).2)
  | .PTCH c => ((hkDataChunkPTCH.Decode c).1, .PTCH (hkDataChunkPTCH.Decode c).2)

/-- The object of a chunk in the tree. -/
def hkDataChunkBase.object : hkDataChunkBase → ChunkObject
  | .node _ object _ => object

/-- The method `ReleaseBuffer()` called on a chunk of the tree. -/
def hkDataChunkBase.ReleaseBuffer : hkDataChunkBase → hkDataChunkBase
  | .node self object children => .node self object.ReleaseBuffer children

/-- The virtual call `Decode()` on a chunk of the tree; no override touches
`children`. -/
def hkDataChunkBase.Decode : hkDataChunkBase → Outcome × hkDataChunkBase
  | .node self object children => (object.Decode.1, .node self object.Decode.2 children)

/-- The bytes that the TST1 loop visits: those of the buffer at the positions
`8 <= i < buffer_size`. -/
def hkDataChunkTST1.visited (c : hkDataChunkTST1) : List Byte :=
  ((c._buffer.getD []).take c._buffer_size).drop 8

/-- What is left in the TST1 loop's local `type_name` when the loop has walked
over `rest` starting with `acc`: the bytes after the last zero byte. -/
def afterLastZero : List Byte → List Byte → List Byte
  | acc, [] => acc
  | acc, b :: rest => if b = 0 then afterLastZero [] rest else afterLastZero (acc ++ [b]) rest

/-- The loop of `hkDataChunkTST1::Decode` reads only inside the buffer: either it
reads nothing (`buffer_size <= 8`) or `_buffer` points at an allocation of at
least `buffer_size` bytes. -/
def hkDataChunkTST1.readable (c : hkDataChunkTST1) : Prop :=
  c._buffer_size ≤ 8 ∨ ∃ buf, c._buffer = some buf ∧ c._buffer_size ≤ buf.length

/-- A TST1 chunk that was given the 16 bytes of an 8-byte header and the payload
`"Foo\0Bar\0"`. -/
def sampleTST1 : hkDataChunkTST1 :=
  ({} : hkDataChunkTST1).SetBuffer
    (some ([0x40, 0, 0, 16, 84, 83, 84, 49] ++ zeroTerminated [[70, 111, 111], [66, 97, 114]])) 16

/-- The chunk `sampleTST1` after `ReleaseBuffer()`: its buffer is null and its
buffer size still 16. -/
def releasedTST1 : hkDataChunkTST1 :=
  sampleTST1.ReleaseBuffer

/-- A fresh TST1 chunk after `SetBuffer(nullptr, 16)`: a null buffer with the
buffer size 16. -/
def unsetTST1 : hkDataChunkTST1 :=
  ({} : hkDataChunkTST1).SetBuffer none 16

/-- A fresh TST1 chunk that was given a buffer of 12 bytes, an 8-byte header and
`"Foo\0"`, with the buffer size 16. -/
def shortTST1 : hkDataChunkTST1 :=
  ({} : hkDataChunkTST1).SetBuffer
    (some ([0x40, 0, 0, 16, 84, 83, 84, 49] ++ zeroTerminated [[70, 111, 111]])) 16

/-- An SDKV chunk with `data_size` 16 whose buffer is an 8-byte header followed by
`"20210101"`, and which holds no version yet. -/
def sampleSDKV : hkDataChunkSDKV :=
  { data_size := 16,
    _buffer := some [0x40, 0, 0, 16, 83, 68, 75, 86, 50, 48, 50, 49, 48, 49, 48, 49],
    _buffer_size := 16 }

end hkphysics

namespace hkreflex

/-- Modelled from the spec: the class instance `hkClassInstance`, declared
outside the sources. The specification's data model gives its variants:
`Primitive(value)`, `Record(typeRef, mapping fieldName→GenericInstance)`,
`Array(elementKind, ordered sequence)` and `Pointer(target)`. A record keeps the
name of its type (`type->type_name`) and its fields in declaration order; the
rest of its type schema and the element kind of an array do not enter the
adapter and are left out. -/
inductive hkClassInstance where
  | Primitive (value : Int)
  | Record (type_name : String) (fields : List (String × hkClassInstance))
  | Array (elements : List hkClassInstance)
  | Pointer (slot : Nat)
  deriving Repr

/-- Modelled from the spec: the record variant `hkClassRecordInstance`, the
target of the adapters' `dynamic_cast`. -/
structure hkClassRecordInstance where
  /-- Member `type->type_name` -/
  type_name : String
  /-- the field instances by name, in declaration order -/
  fields : List (String × hkClassInstance)
  deriving Repr

/-- A record seen as an `hkClassInstance`. -/
def hkClassRecordInstance.toInstance (r : hkClassRecordInstance) : hkClassInstance :=
  .Record r.type_name r.fields

/-- The cast `dynamic_cast<hkClassRecordInstance*>(instance)`: null for a null pointer and
for an instance that is not a record. -/
def dynamic_cast (inst : Option hkClassInstance) : Option hkClassRecordInstance :=
  match inst with
  | some (.Record type_name fields) => some ⟨type_name, fields⟩
  | _ => none

/-- Looks a name up in a field list: the first field of that name. -/
def lookupField (name : String) : List (String × hkClassInstance) → Option hkClassInstance
  | [] => none
  | (n, i) :: rest => if n = name then some i else lookupField name rest

/-- Replaces the instance of the first field of that name. -/
def replaceField (name : String) (value : hkClassInstance) :
    List (String × hkClassInstance) → List (String × hkClassInstance)
  | [] => []
  | (n, i) :: rest =>
    if n = name then (n, value) :: rest else (n, i) :: replaceField name value rest

/-- Modelled from the spec: `GetInstanceByFieldName(name)`, declared outside the
sources: the field accessor by name, a pointer to the field's instance, null
when the record has no field of that name (the specification's
`AccessError::UnknownField` case, which the adapters do not check for). -/
def hkClassRecordInstance.GetInstanceByFieldName (r : hkClassRecordInstance) (name : String) :
    Option hkClassInstance :=
  lookupField name r.fields

/-- The record after the instance that `GetInstanceByFieldName(name)` points to
has been overwritten with `value`. -/
def hkClassRecordInstance.store (r : hkClassRecordInstance) (name : String)
    (value : hkClassInstance) : hkClassRecordInstance :=
  { r with fields := replaceField name value r.fields }

end hkreflex

namespace hktypes

open hkreflex

/-- What `hclBoneSpaceSkinPNOperator.cpp` uses and does not define, taken as
parameters: whether the build defines the preprocessor symbol
`NO_HK_TYPENAME_CHECK`, the parent adapter `hclBoneSpaceSkinOperator` (acting on
the inherited members, of type `Parent`), and `GetValue`/`SetValue` of the
instance class at the types of the two members. A parent call gets the pointer
that `GetInstanceByFieldName` returned; `ToInstance` also yields what that
pointer points to afterwards. `GetValue` gets the instance and the member's old
value and yields the member's new value; `SetValue` gets the instance and the
member and yields the instance's new content. -/
structure Collaborators (Parent PNs UnpackedPNs : Type) where
  /-- the symbol `NO_HK_TYPENAME_CHECK` is defined -/
  NO_HK_TYPENAME_CHECK : Bool
  /-- The collaborator `hclBoneSpaceSkinOperator::FromInstance` -/
  parentFromInstance : Parent → Option hkClassInstance → Outcome × Parent
  /-- The collaborator `hclBoneSpaceSkinOperator::ToInstance` -/
  parentToInstance : Parent → Option hkClassInstance → Outcome × Parent × Option hkClassInstance
  /-- The collaborator `GetValue(localPNs)` -/
  GetValuePNs : hkClassInstance → PNs → PNs
  /-- The collaborator `SetValue(localPNs)` -/
  SetValuePNs : hkClassInstance → PNs → hkClassInstance
  /-- The collaborator `GetValue(localUnpackedPNs)` -/
  GetValueUnpackedPNs : hkClassInstance → UnpackedPNs → UnpackedPNs
  /-- The collaborator `SetValue(localUnpackedPNs)` -/
  SetValueUnpackedPNs : hkClassInstance → UnpackedPNs → hkClassInstance

/-- The adapter object: the inherited members (its `hclBoneSpaceSkinOperator`
base) and the two members the class declares. -/
structure hclBoneSpaceSkinPNOperator (Parent PNs UnpackedPNs : Type) where
  /-- the base class subobject -/
  base : Parent
  localPNs : PNs
  localUnpackedPNs : UnpackedPNs

/-- The condition of the type check,
`class_instance && class_instance->type->type_name != "hclBoneSpaceSkinPNOperator"`. -/
def hclBoneSpaceSkinPNOperator.wrongType (class_instance : Option hkClassRecordInstance) : Bool :=
  match class_instance with
  | none => false
  | some r => r.type_name != "hclBoneSpaceSkinPNOperator"

/-- The method `hclBoneSpaceSkinPNOperator::FromInstance(instance)`, with the adapter's
members before the call as `self` and the argument as `inst`; the result is how the call ends and the
members then. The check, compiled unless `NO_HK_TYPENAME_CHECK` is defined,
prints and executes `throw;`. After it `class_instance` is dereferenced three
times: for the parent's call, for `localPNs` and for `localUnpackedPNs`; the
parent's return value is dropped and the adapter returns `true`. -/
def hclBoneSpaceSkinPNOperator.FromInstance {Parent PNs UnpackedPNs : Type}
    (env : Collaborators Parent PNs UnpackedPNs)
    (self : hclBoneSpaceSkinPNOperator Parent PNs UnpackedPNs)
    (inst : Option hkClassInstance) :
    Outcome × hclBoneSpaceSkinPNOperator Parent PNs UnpackedPNs :=
  let class_instance := dynamic_cast inst
  if !env.NO_HK_TYPENAME_CHECK && hclBoneSpaceSkinPNOperator.wrongType class_instance then
    (Outcome.threw "hclBoneSpaceSkinPNOperator::FromInstance: Wrong type!", self)
  else
    match class_instance with
    | none => (Outcome.fault, self)
    | some r =>
      match env.parentFromInstance self.base (r.GetInstanceByFieldName "class_parent") with
      | (Outcome.returned _, base) =>
        match r.GetInstanceByFieldName "localPNs" with
        | none => (Outcome.fault, { self with base := base })
        | some pns =>
          match r.GetInstanceByFieldName "localUnpackedPNs" with
          | none =>
            (Outcome.fault,
              { self with base := base, localPNs := env.GetValuePNs pns self.localPNs })
          | some unpacked =>
            (Outcome.returned true,
              { base := base,
                localPNs := env.GetValuePNs pns self.localPNs,
                localUnpackedPNs := env.GetValueUnpackedPNs unpacked self.localUnpackedPNs })
      | (outcome, base) => (outcome, { self with base := base })

/-- The method `hclBoneSpaceSkinPNOperator::ToInstance(instance)`; the result is how the
call ends, the adapter's members then, and what `inst`, the argument `instance`, points to then. The
check is as in `FromInstance`. After it the parent's `ToInstance` runs on the
`"class_parent"` field, then `SetValue(localPNs)` on the `"localPNs"` field and
`SetValue(localUnpackedPNs)` on the `"localUnpackedPNs"` field, and the adapter
returns `true`. -/
def hclBoneSpaceSkinPNOperator.ToInstance {Parent PNs UnpackedPNs : Type}
    (env : Collaborators Parent PNs UnpackedPNs)
    (self : hclBoneSpaceSkinPNOperator Parent PNs UnpackedPNs)
    (inst : Option hkClassInstance) :
    Outcome × hclBoneSpaceSkinPNOperator Parent PNs UnpackedPNs × Option hkClassInstance :=
  let class_instance := dynamic_cast inst
  if !env.NO_HK_TYPENAME_CHECK && hclBoneSpaceSkinPNOperator.wrongType class_instance then
    (Outcome.threw "hclBoneSpaceSkinPNOperator::ToInstance: Wrong type!", self, inst)
  else
    match class_instance with
    | none => (Outcome.fault, self, inst)
    | some r =>
      match env.parentToInstance self.base (r.GetInstanceByFieldName "class_parent") with
      | (outcome, base, parentField) =>
        let r₁ :=
          match parentField with
          | some value => r.store "class_parent" value
          | none => r
        match outcome with
        | Outcome.returned _ =>
          match r₁.GetInstanceByFieldName "localPNs" with
          | none => (Outcome.fault, { self with base := base }, some r₁.toInstance)
          | some pns =>
            let r₂ := r₁.store "localPNs" (env.SetValuePNs pns self.localPNs)
            match r₂.GetInstanceByFieldName "localUnpackedPNs" with
            | none => (Outcome.fault, { self with base := base }, some r₂.toInstance)
            | some unpacked =>
              (Outcome.returned true, { self with base := base },
                some (r₂.store "localUnpackedPNs"
                  (env.SetValueUnpackedPNs unpacked self.localUnpackedPNs)).toInstance)
        | _ => (outcome, { self with base := base }, some r₁.toInstance)

/-- A `GetValue` for a list of integers, used in the examples: an array of
primitives yields their values, any other instance leaves the member alone. -/
def sampleGetValue (i : hkClassInstance) (old : List Int) : List Int :=
  match i with
  | .Array elements =>
    elements.filterMap fun e =>
      match e with
      | .Primitive value => some value
      | _ => none
  | _ => old

/-- A `SetValue` for a list of integers, used in the examples: the instance
becomes the array of the values. -/
def sampleSetValue (_ : hkClassInstance) (value : List Int) : hkClassInstance :=
  .Array (value.map .Primitive)

/-- Collaborators for the examples. The parent adapter follows the generated
pattern as far as its check goes: on a null cast result it faults, on a record
of another type than `hclBoneSpaceSkinOperator` it throws when the check is
compiled in, otherwise it returns `true`; its only member counts the calls of
the parent adapter that returned. -/
def sampleCollaborators (noCheck : Bool) : Collaborators Nat (List Int) (List Int) where
  NO_HK_TYPENAME_CHECK := noCheck
  parentFromInstance := fun count inst =>
    match dynamic_cast inst with
    | none => (Outcome.fault, count)
    | some r =>
      if !noCheck && r.type_name != "hclBoneSpaceSkinOperator" then
        (Outcome.threw "hclBoneSpaceSkinOperator::FromInstance: Wrong type!", count)
      else (Outcome.returned true, count + 1)
  parentToInstance := fun count inst =>
    match dynamic_cast inst with
    | none => (Outcome.fault, count, inst)
    | some r =>
      if !noCheck && r.type_name != "hclBoneSpaceSkinOperator" then
        (Outcome.threw "hclBoneSpaceSkinOperator::ToInstance: Wrong type!", count, inst)
      else (Outcome.returned true, count + 1, inst)
  GetValuePNs := sampleGetValue
  SetValuePNs := sampleSetValue
  GetValueUnpackedPNs := sampleGetValue
  SetValueUnpackedPNs := sampleSetValue

/-- The fields of the example records: the parent's record, `localPNs` holding
`[1, 2]` and `localUnpackedPNs` holding `[3]`, and one more field. -/
def sampleFields : List (String × hkClassInstance) :=
  [("class_parent", .Record "hclBoneSpaceSkinOperator" []),
   ("localPNs", .Array [.Primitive 1, .Primitive 2]),
   ("localUnpackedPNs", .Array [.Primitive 3]),
   ("userData", .Primitive 7)]

/-- An adapter object for the examples. -/
def sampleAdapter : hclBoneSpaceSkinPNOperator Nat (List Int) (List Int) :=
  { base := 0, localPNs := [10], localUnpackedPNs := [20, 30] }

end hktypes

namespace hkphysics

/-! ## Lemmas on the TST1 loop -/

theorem DecodeLoop_splitAtZeros (rest : List Byte) :
    ∀ (pre acc : List Byte) (names : List (List Byte)) (fuel : Nat),
      rest.length ≤ fuel →
      hkDataChunkTST1.DecodeLoop (some (pre ++ rest)) (pre.length + rest.length) fuel
          pre.length acc names
        = (Outcome.returned true, names ++ splitAtZeros acc rest) := by
  induction rest with
  | nil =>
    intro pre acc names fuel _
    cases fuel <;> simp [hkDataChunkTST1.DecodeLoop, splitAtZeros]
  | cons b rest ih =>
    intro pre acc names fuel hfuel
    cases fuel with
    | zero => simp at hfuel
    | succ fuel =>
      have hfuel' : rest.length ≤ fuel := by simpa using hfuel
      have hget : (pre ++ b :: rest)[pre.length]? = some b := by
        rw [List.getElem?_append_right (Nat.le_refl _)]; simp
      have hpre : pre ++ b :: rest = (pre ++ [b]) ++ rest := by simp
      have hlen : pre.length + (b :: rest).length = (pre ++ [b]).length + rest.length := by
        simp; omega
      have hpos : pre.length + 1 = (pre ++ [b]).length := by simp
      have hlt : pre.length < pre.length + (b :: rest).length := by simp
      have ih1 := ih (pre ++ [b]) [] (names ++ [acc]) fuel hfuel'
      have ih2 := ih (pre ++ [b]) (acc ++ [b]) names fuel hfuel'
      rw [← hpre, ← hlen, ← hpos] at ih1 ih2
      unfold hkDataChunkTST1.DecodeLoop
      simp only [hlt, if_true, hget]
      by_cases hb : b = 0
      · simp only [hb, if_true]
        rw [hb] at ih1
        rw [ih1]
        simp [splitAtZeros]
      · simp only [hb, if_false]
        rw [ih2]
        simp [splitAtZeros, hb]

theorem splitAtZeros_name (name : List Byte) (h0 : (0 : Byte) ∉ name) :
    ∀ (acc rest : List Byte),
      splitAtZeros acc (name ++ 0 :: rest) = (acc ++ name) :: splitAtZeros [] rest := by
  induction name with
  | nil => intro acc rest; simp [splitAtZeros]
  | cons b name ih =>
    intro acc rest
    have hb : b ≠ 0 := fun h => h0 (by simp [h])
    have h0' : (0 : Byte) ∉ name := fun h => h0 (by simp [h])
    simp [splitAtZeros, hb, ih h0']

theorem splitAtZeros_zeroTerminated (names : List (List Byte))
    (h0 : ∀ name ∈ names, (0 : Byte) ∉ name) :
    splitAtZeros [] (zeroTerminated names) = names := by
  induction names with
  | nil => simp [zeroTerminated, splitAtZeros]
  | cons name names ih =>
    have h1 : (0 : Byte) ∉ name := h0 name (by simp)
    have h2 : ∀ n ∈ names, (0 : Byte) ∉ n := fun n hn => h0 n (by simp [hn])
    simp [zeroTerminated, splitAtZeros_name name h1, ih h2]

/-! ## Lemmas on the string scan -/

theorem GetActualDataSize_of_le (c : hkDataChunkTAG0) (h8 : 8 ≤ c.data_size)
    (h16 : c.data_size < 2 ^ 16) : c.GetActualDataSize = c.data_size - 8 := by
  unfold hkDataChunkTAG0.GetActualDataSize
  omega

theorem readStringScan_eq (left : Nat) :
    ∀ (pre rest taken : List Byte), left ≤ rest.length →
      Util.readStringScan (some (pre ++ rest)) left pre.length taken
        = some (taken ++ (rest.take left).takeWhile (fun b => b ≠ 0)) := by
  induction left with
  | zero => intro pre rest taken _; simp [Util.readStringScan]
  | succ left ih =>
    intro pre rest taken hlen
    cases rest with
    | nil => simp at hlen
    | cons b rest =>
      have hlen' : left ≤ rest.length := by simpa using hlen
      have hget : (pre ++ b :: rest)[pre.length]? = some b := by
        rw [List.getElem?_append_right (Nat.le_refl _)]; simp
      have ih1 := ih (pre ++ [b]) rest (taken ++ [b]) hlen'
      have hpre : pre ++ [b] ++ rest = pre ++ b :: rest := by simp
      have hpos : (pre ++ [b]).length = pre.length + 1 := by simp
      rw [hpre, hpos] at ih1
      unfold Util.readStringScan
      simp only [hget]
      by_cases hb : b = 0
      · simp [hb]
      · simp [hb, ih1]

/-! ## Lemmas on the traversal -/

/-- Induction over a chunk tree together with its lists of children. -/
theorem hkDataChunkBase.induct {P : hkDataChunkBase → Prop} {Q : List hkDataChunkBase → Prop}
    (hnode : ∀ self object children, Q children → P (.node self object children))
    (hnil : Q [])
    (hcons : ∀ child rest, P child → Q rest → Q (child :: rest)) :
    (∀ t, P t) ∧ (∀ ts, Q ts) :=
  ⟨fun t => @hkDataChunkBase.rec P Q hnode hnil hcons t,
   fun ts => @hkDataChunkBase.rec_1 P Q hnode hnil hcons ts⟩

theorem Traverse_log :
    (∀ t : hkDataChunkBase, ∀ log : List Call,
      t.Traverse (fun chunk log => log ++ [Call.pre chunk])
        (fun chunk log => log ++ [Call.post chunk]) log = log ++ t.calls) ∧
    (∀ ts : List hkDataChunkBase, ∀ log : List Call,
      hkDataChunkBase.TraverseChildren (fun chunk log => log ++ [Call.pre chunk])
        (fun chunk log => log ++ [Call.post chunk]) ts log
        = log ++ hkDataChunkBase.callsList ts) := by
  apply hkDataChunkBase.induct
  · intro self object children ih log
    simp only [hkDataChunkBase.calls, hkDataChunkBase.Traverse]
    rw [ih, ih]
    simp
  · intro log
    simp [hkDataChunkBase.callsList, hkDataChunkBase.TraverseChildren]
  · intro child rest ihc ihr log
    simp only [hkDataChunkBase.callsList, hkDataChunkBase.TraverseChildren]
    rw [ihc, ihr, ihc, ihr (([] : List Call) ++ child.calls)]
    simp [hkDataChunkBase.callsList]

theorem calls_node (self : Nat) (object : ChunkObject) (children : List hkDataChunkBase) :
    (hkDataChunkBase.node self object children).calls
      = Call.pre (.node self object children)
          :: (hkDataChunkBase.callsList children ++ [Call.post (.node self object children)]) := by
  simp only [hkDataChunkBase.calls, hkDataChunkBase.Traverse]
  rw [Traverse_log.2]
  simp

theorem callsList_nil : hkDataChunkBase.callsList [] = [] := by
  simp [hkDataChunkBase.callsList, hkDataChunkBase.TraverseChildren]

theorem callsList_cons (child : hkDataChunkBase) (rest : List hkDataChunkBase) :
    hkDataChunkBase.callsList (child :: rest)
      = child.calls ++ hkDataChunkBase.callsList rest := by
  simp only [hkDataChunkBase.callsList, hkDataChunkBase.TraverseChildren]
  rw [Traverse_log.2, Traverse_log.1]
  simp [hkDataChunkBase.callsList]

theorem Traverse_eq_foldl {σ : Type} (pre post : hkDataChunkBase → σ → σ) :
    (∀ t : hkDataChunkBase, ∀ s : σ,
      t.Traverse pre post s = t.calls.foldl (fun s call => call.run pre post s) s) ∧
    (∀ ts : List hkDataChunkBase, ∀ s : σ,
      hkDataChunkBase.TraverseChildren pre post ts s
        = (hkDataChunkBase.callsList ts).foldl (fun s call => call.run pre post s) s) := by
  apply hkDataChunkBase.induct
  · intro self object children ih s
    simp [calls_node, hkDataChunkBase.Traverse, ih, Call.run, List.foldl_append]
  · intro s
    simp [callsList_nil, hkDataChunkBase.TraverseChildren]
  · intro child rest ihc ihr s
    simp [callsList_cons, hkDataChunkBase.TraverseChildren, ihc, ihr, List.foldl_append]

theorem calls_pre_eq_preorder :
    (∀ t : hkDataChunkBase, t.calls.filterMap Call.preChunk = t.preorder) ∧
    (∀ ts : List hkDataChunkBase,
      (hkDataChunkBase.callsList ts).filterMap Call.preChunk
        = hkDataChunkBase.preorderList ts) := by
  apply hkDataChunkBase.induct
  · intro self object children ih
    simp [calls_node, hkDataChunkBase.preorder, ih, Call.preChunk, List.filterMap_append]
  · simp [callsList_nil, hkDataChunkBase.preorderList]
  · intro child rest ihc ihr
    simp [callsList_cons, hkDataChunkBase.preorderList, ihc, ihr, List.filterMap_append]

theorem calls_post_eq_postorder :
    (∀ t : hkDataChunkBase, t.calls.filterMap Call.postChunk = t.postorder) ∧
    (∀ ts : List hkDataChunkBase,
      (hkDataChunkBase.callsList ts).filterMap Call.postChunk
        = hkDataChunkBase.postorderList ts) := by
  apply hkDataChunkBase.induct
  · intro self object children ih
    simp [calls_node, hkDataChunkBase.postorder, ih, Call.postChunk, List.filterMap_append]
  · simp [callsList_nil, hkDataChunkBase.postorderList]
  · intro child rest ihc ihr
    simp [callsList_cons, hkDataChunkBase.postorderList, ihc, ihr, List.filterMap_append]

theorem postorder_perm_preorder :
    (∀ t : hkDataChunkBase, t.postorder.Perm t.preorder) ∧
    (∀ ts : List hkDataChunkBase,
      (hkDataChunkBase.postorderList ts).Perm (hkDataChunkBase.preorderList ts)) := by
  apply hkDataChunkBase.induct
  · intro self object children ih
    simp only [hkDataChunkBase.postorder, hkDataChunkBase.preorder]
    exact (List.perm_append_singleton _ _).trans (List.Perm.cons _ ih)
  · simp [hkDataChunkBase.postorderList, hkDataChunkBase.preorderList]
  · intro child rest ihc ihr
    simp only [hkDataChunkBase.postorderList, hkDataChunkBase.preorderList]
    exact List.Perm.append ihc ihr

theorem calls_infix :
    (∀ t : hkDataChunkBase, ∀ n ∈ t.preorder, ∃ l₁ l₂, t.calls = l₁ ++ n.calls ++ l₂) ∧
    (∀ ts : List hkDataChunkBase, ∀ n ∈ hkDataChunkBase.preorderList ts,
      ∃ l₁ l₂, hkDataChunkBase.callsList ts = l₁ ++ n.calls ++ l₂) := by
  apply hkDataChunkBase.induct
  · intro self object children ih n hn
    simp only [hkDataChunkBase.preorder, List.mem_cons] at hn
    rcases hn with hn | hn
    · exact ⟨[], [], by simp [hn]⟩
    · obtain ⟨l₁, l₂, h⟩ := ih n hn
      refine ⟨Call.pre (.node self object children) :: l₁,
        l₂ ++ [Call.post (.node self object children)], ?_⟩
      simp [calls_node, h]
  · intro n hn
    simp [hkDataChunkBase.preorderList] at hn
  · intro child rest ihc ihr n hn
    simp only [hkDataChunkBase.preorderList, List.mem_append] at hn
    rcases hn with hn | hn
    · obtain ⟨l₁, l₂, h⟩ := ihc n hn
      exact ⟨l₁, l₂ ++ hkDataChunkBase.callsList rest, by simp [callsList_cons, h]⟩
    · obtain ⟨l₁, l₂, h⟩ := ihr n hn
      exact ⟨child.calls ++ l₁, l₂, by simp [callsList_cons, h]⟩

theorem calls_mem_of_mem_preorder :
    (∀ t : hkDataChunkBase, ∀ d ∈ t.preorder, Call.pre d ∈ t.calls ∧ Call.post d ∈ t.calls) ∧
    (∀ ts : List hkDataChunkBase, ∀ d ∈ hkDataChunkBase.preorderList ts,
      Call.pre d ∈ hkDataChunkBase.callsList ts ∧ Call.post d ∈ hkDataChunkBase.callsList ts) := by
  apply hkDataChunkBase.induct
  · intro self object children ih d hd
    simp only [hkDataChunkBase.preorder, List.mem_cons] at hd
    rcases hd with hd | hd
    · subst hd; simp [calls_node]
    · have := ih d hd
      simp [calls_node, this]
  · intro d hd
    simp [hkDataChunkBase.preorderList] at hd
  · intro child rest ihc ihr d hd
    simp only [hkDataChunkBase.preorderList, List.mem_append] at hd
    rcases hd with hd | hd
    · have := ihc d hd
      simp [callsList_cons, this]
    · have := ihr d hd
      simp [callsList_cons, this]

theorem calls_nodup_of_filterMap (l : List Call)
    (hpre : (l.filterMap Call.preChunk).Nodup) (hpost : (l.filterMap Call.postChunk).Nodup) :
    l.Nodup := by
  induction l with
  | nil => simp
  | cons call l ih =>
    cases call with
    | pre chunk =>
      simp only [List.filterMap_cons, Call.preChunk, Call.postChunk, List.nodup_cons] at hpre hpost
      refine List.nodup_cons.mpr ⟨fun hmem => hpre.1 ?_, ih hpre.2 hpost⟩
      exact List.mem_filterMap.mpr ⟨Call.pre chunk, hmem, rfl⟩
    | post chunk =>
      simp only [List.filterMap_cons, Call.preChunk, Call.postChunk, List.nodup_cons] at hpre hpost
      refine List.nodup_cons.mpr ⟨fun hmem => hpost.1 ?_, ih hpre hpost.2⟩
      exact List.mem_filterMap.mpr ⟨Call.post chunk, hmem, rfl⟩

theorem before_of_bracket (a e b : Call) (l₁ mid l₂ : List Call) (he : e ∈ mid) :
    Before a e (l₁ ++ (a :: (mid ++ [b])) ++ l₂) ∧ Before e b (l₁ ++ (a :: (mid ++ [b])) ++ l₂) := by
  obtain ⟨m₁, m₂, hmid⟩ := List.append_of_mem he
  subst hmid
  exact ⟨⟨l₁, m₁, m₂ ++ b :: l₂, by simp⟩, ⟨l₁ ++ a :: m₁, m₂, l₂, by simp⟩⟩

/-! ## Theorems -/

/-- C1: for every list of names without a zero byte (empty names allowed) and
every 8-byte header, a TST1 chunk whose `type_names` is empty and whose buffer
is the header followed by each name and one zero byte, with the buffer size
equal to that length (a `uint32_t`), decodes with `Decode()` returning `true`
and `type_names` equal to exactly that list, in order. -/
theorem tst1_decode_names (c : hkDataChunkTST1) (header : List Byte)
    (names : List (List Byte))
    (hfresh : c.type_names = [])
    (hheader : header.length = 8)
    (hnames : ∀ name ∈ names, (0 : Byte) ∉ name)
    (hsize : (header ++ zeroTerminated names).length < 2 ^ 32) :
    (c.SetBuffer (some (header ++ zeroTerminated names))
        (header ++ zeroTerminated names).length).Decode
      = (Outcome.returned true,
          { c.SetBuffer (some (header ++ zeroTerminated names))
              (header ++ zeroTerminated names).length with type_names := names }) := by
  have hmod : (header ++ zeroTerminated names).length % 2 ^ 32
      = header.length + (zeroTerminated names).length := by
    rw [Nat.mod_eq_of_lt hsize]; simp
  have hloop := DecodeLoop_splitAtZeros (zeroTerminated names) header [] []
    (header.length + (zeroTerminated names).length) (by omega)
  rw [splitAtZeros_zeroTerminated names hnames] at hloop
  simp only [hkDataChunkTST1.Decode, hkDataChunkTST1.SetBuffer, hkDataChunkTAG0.SetBuffer,
    hkDataChunkTAG0.GetBufferSize, hmod, hfresh]
  rw [← hheader, hloop]
  simp

/-- C1, the scenario of the specification: the payload `"Foo\0Bar\0"` behind an
8-byte header decodes to `["Foo", "Bar"]`. -/
theorem tst1_decode_names_witness :
    (({} : hkDataChunkTST1).SetBuffer
        (some ([0x40, 0, 0, 16, 84, 83, 84, 49]
          ++ zeroTerminated [[70, 111, 111], [66, 97, 114]]))
        ([0x40, 0, 0, 16, 84, 83, 84, 49]
          ++ zeroTerminated [[70, 111, 111], [66, 97, 114]]).length).Decode
      = (Outcome.returned true,
          { ({} : hkDataChunkTST1).SetBuffer
              (some ([0x40, 0, 0, 16, 84, 83, 84, 49]
                ++ zeroTerminated [[70, 111, 111], [66, 97, 114]]))
              ([0x40, 0, 0, 16, 84, 83, 84, 49]
                ++ zeroTerminated [[70, 111, 111], [66, 97, 114]]).length
            with type_names := [[70, 111, 111], [66, 97, 114]] }) :=
  tst1_decode_names {} [0x40, 0, 0, 16, 84, 83, 84, 49] [[70, 111, 111], [66, 97, 114]]
    rfl rfl (by decide) (by decide)

/-- C2: for every SDKV chunk whose `data_size` (a `uint16_t`) is at least 8 and
whose buffer holds at least `data_size` bytes, `Decode()` returns `true` and
sets `sdk_version` to the bytes from offset 8 up to, and without, the first zero
byte, or until `data_size - 8` bytes are taken, whichever comes first; no other
member changes. `Util::readStringFromBuffer` follows the specification's scan
rule. -/
theorem sdkv_decode_version (c : hkDataChunkSDKV) (buf : List Byte)
    (hbuf : c._buffer = some buf)
    (h8 : 8 ≤ c.data_size)
    (h16 : c.data_size < 2 ^ 16)
    (hlen : c.data_size ≤ buf.length) :
    c.Decode = (Outcome.returned true,
      { c with sdk_version :=
          ((buf.drop 8).take (c.data_size - 8)).takeWhile (fun b => b ≠ 0) }) := by
  have hsplit : buf = buf.take 8 ++ buf.drop 8 := (List.take_append_drop 8 buf).symm
  have hpre : (buf.take 8).length = 8 := by simp; omega
  have hscan := readStringScan_eq (c.data_size - 8) (buf.take 8) (buf.drop 8) []
    (by simp; omega)
  rw [← hsplit, hpre] at hscan
  simp only [hkDataChunkSDKV.Decode, Util.readStringFromBuffer,
    GetActualDataSize_of_le c.tohkDataChunkTAG0 h8 h16, hbuf, hscan]
  simp

/-- C2, the scenario of the specification: an 8-byte header with `data_size` 16
followed by `"20210101"` gives `sdk_version == "20210101"`. -/
theorem sdkv_decode_version_witness :
    ({ data_size := 16,
       _buffer := some [0x40, 0, 0, 16, 83, 68, 75, 86, 50, 48, 50, 49, 48, 49, 48, 49],
       _buffer_size := 16 } : hkDataChunkSDKV).Decode
      = (Outcome.returned true,
          { data_size := 16,
            _buffer := some [0x40, 0, 0, 16, 83, 68, 75, 86, 50, 48, 50, 49, 48, 49, 48, 49],
            _buffer_size := 16,
            sdk_version := [50, 48, 50, 49, 48, 49, 48, 49] }) :=
  sdkv_decode_version
    { data_size := 16,
      _buffer := some [0x40, 0, 0, 16, 83, 68, 75, 86, 50, 48, 50, 49, 48, 49, 48, 49],
      _buffer_size := 16 }
    [0x40, 0, 0, 16, 83, 68, 75, 86, 50, 48, 50, 49, 48, 49, 48, 49]
    rfl (by decide) (by decide) (by decide)

/-- C3: for every finite chunk tree `Traverse(pre, post)` is a total function
whose effect, for any two callbacks, is that of performing the calls of
`t.calls` in order. The calls on `pre` are, in order, the pre-order listing of
the tree, the calls on `post` the post-order listing, which lists the same
chunks; so each callback is called exactly once per node. For every node `n`
the call `pre n` comes before `post n`, and for every proper descendant `d` of
`n` both calls on `d` come after `pre n` and before `post n`. When the chunks
have pairwise distinct addresses no call occurs twice in the sequence, so these
positions are unique. -/
theorem traverse_calls (t : hkDataChunkBase) :
    (∀ (σ : Type) (pre post : hkDataChunkBase → σ → σ) (s : σ),
      t.Traverse pre post s = t.calls.foldl (fun s call => call.run pre post s) s) ∧
    t.calls.filterMap Call.preChunk = t.preorder ∧
    t.calls.filterMap Call.postChunk = t.postorder ∧
    t.postorder.Perm t.preorder ∧
    (∀ n ∈ t.preorder,
      Before (Call.pre n) (Call.post n) t.calls ∧
      ∀ d ∈ n.descendants,
        Before (Call.pre n) (Call.pre d) t.calls ∧
        Before (Call.pre n) (Call.post d) t.calls ∧
        Before (Call.pre d) (Call.post n) t.calls ∧
        Before (Call.post d) (Call.post n) t.calls) ∧
    ((t.preorder.map hkDataChunkBase.self).Nodup → t.calls.Nodup) := by
  refine ⟨fun σ pre post s => (Traverse_eq_foldl pre post).1 t s, calls_pre_eq_preorder.1 t,
    calls_post_eq_postorder.1 t, postorder_perm_preorder.1 t, ?_, ?_⟩
  · intro n hn
    obtain ⟨l₁, l₂, hcalls⟩ := calls_infix.1 t n hn
    cases n with
    | node self object children =>
      rw [calls_node] at hcalls
      refine ⟨⟨l₁, hkDataChunkBase.callsList children, l₂, by simp [hcalls]⟩, ?_⟩
      intro d hd
      have hmem := calls_mem_of_mem_preorder.2 children d hd
      rw [hcalls]
      have hpre := before_of_bracket (Call.pre (.node self object children)) (Call.pre d)
        (Call.post (.node self object children)) l₁ (hkDataChunkBase.callsList children) l₂ hmem.1
      have hpost := before_of_bracket (Call.pre (.node self object children)) (Call.post d)
        (Call.post (.node self object children)) l₁ (hkDataChunkBase.callsList children) l₂ hmem.2
      exact ⟨hpre.1, hpost.1, hpre.2, hpost.2⟩
  · intro haddr
    have hpre : t.preorder.Nodup := List.Nodup.of_map _ haddr
    have hpost : t.postorder.Nodup := ((postorder_perm_preorder.1 t).nodup_iff).mpr hpre
    apply calls_nodup_of_filterMap
    · rw [calls_pre_eq_preorder.1 t]; exact hpre
    · rw [calls_post_eq_postorder.1 t]; exact hpost

/-- C3 on the sample tree: its four addresses are distinct, so its eight calls
are pairwise distinct. -/
theorem traverse_calls_witness :
    (sampleTree.preorder.map hkDataChunkBase.self).Nodup ∧ sampleTree.calls.Nodup :=
  ⟨by decide, (traverse_calls sampleTree).2.2.2.2.2 (by decide)⟩

/-- C7: the tags of the 14 known kinds are, in the order of the enumeration,
`TAG0, SDKV, DATA, TYPE, TPTR, TST1, TNA1, FST1, TBDY, THSH, TPAD, INDX, ITEM,
PTCH`, each of 4 characters; `ChunkTypeFromName(GetChunkTypeName(k)) = k` for
each known kind `k`; and `ChunkTypeFromName` gives `ChunkType::Unknown` for
every name that is none of the 14 tags. -/
theorem chunk_type_names :
    ChunkType.known.map GetChunkTypeName = tagVocabulary ∧
    (∀ k ∈ ChunkType.known,
      (GetChunkTypeName k).length = 4 ∧ ChunkTypeFromName (GetChunkTypeName k) = k) ∧
    (∀ k : ChunkType, k ≠ ChunkType.Unknown → k ∈ ChunkType.known) ∧
    (∀ name : String, name ∉ tagVocabulary → ChunkTypeFromName name = ChunkType.Unknown) := by
  refine ⟨by decide, by decide, ?_, ?_⟩
  · intro k hk
    cases k <;> first | exact absurd rfl hk | decide
  · intro name hname
    simp only [tagVocabulary, List.mem_cons, List.mem_singleton, not_or, List.not_mem_nil,
      not_false_eq_true, and_true] at hname
    obtain ⟨h1, h2, h3, h4, h5, h6, h7, h8, h9, h10, h11, h12, h13, h14⟩ := hname
    simp [ChunkTypeFromName, h1, h2, h3, h4, h5, h6, h7, h8, h9, h10, h11, h12, h13, h14]

/-- C7 on the specification's example of an unknown tag, `"XYZZ"`. -/
theorem chunk_type_names_witness :
    "XYZZ" ∉ tagVocabulary ∧ ChunkTypeFromName "XYZZ" = ChunkType.Unknown :=
  ⟨by decide, chunk_type_names.2.2.2 "XYZZ" (by decide)⟩

/-- C10: `GetType()` of the classes `hkDataChunkTAG0`, `SDKV`, `DATA`, `TYPE`,
`TPTR`, `TST1`, `TNA1`, `FST1`, `TBDY`, `THSH`, `TPAD`, `INDX`, `ITEM` and
`PTCH` returns the kind of the same name; these 14 values are pairwise
distinct, namely 0 through 13 in that order; none is `ChunkType::Unknown`,
which is -1; and every `ChunkType` other than `Unknown` is returned by exactly
one class. The virtual call on an object returns the value of its class. -/
theorem getType_covers_kinds :
    ChunkClass.all.map ChunkClass.GetType = ChunkType.known ∧
    (∀ c : ChunkClass, c ∈ ChunkClass.all) ∧
    ChunkClass.all.map (fun c => c.GetType.toInt) = [0, 1, 2, 3, 4, 5, 6, 7, 8, 9, 10, 11, 12, 13] ∧
    (∀ c₁ c₂ : ChunkClass, c₁.GetType = c₂.GetType → c₁ = c₂) ∧
    (∀ c : ChunkClass, c.GetType ≠ ChunkType.Unknown) ∧
    ChunkType.Unknown.toInt = -1 ∧
    (∀ k : ChunkType, k ≠ ChunkType.Unknown → ∃! c : ChunkClass, c.GetType = k) ∧
    (∀ o : ChunkObject, o.GetType = o.cls.GetType) := by
  refine ⟨by decide, ?_, by decide, ?_, ?_, by decide, ?_, fun _ => rfl⟩
  · intro c; cases c <;> decide
  · intro c₁ c₂ h
    cases c₁ <;> cases c₂ <;> first | rfl | exact absurd h (by decide)
  · intro c; cases c <;> decide
  · intro k hk
    cases k with
    | Unknown => exact absurd rfl hk
    | TAG0 => exact ⟨.hkDataChunkTAG0, rfl, fun c hc => by cases c <;> first | rfl | exact absurd hc (by decide)⟩
    | SDKV => exact ⟨.hkDataChunkSDKV, rfl, fun c hc => by cases c <;> first | rfl | exact absurd hc (by decide)⟩
    | DATA => exact ⟨.hkDataChunkDATA, rfl, fun c hc => by cases c <;> first | rfl | exact absurd hc (by decide)⟩
    | TYPE => exact ⟨.hkDataChunkTYPE, rfl, fun c hc => by cases c <;> first | rfl | exact absurd hc (by decide)⟩
    | TPTR => exact ⟨.hkDataChunkTPTR, rfl, fun c hc => by cases c <;> first | rfl | exact absurd hc (by decide)⟩
    | TST1 => exact ⟨.hkDataChunkTST1, rfl, fun c hc => by cases c <;> first | rfl | exact absurd hc (by decide)⟩
    | TNA1 => exact ⟨.hkDataChunkTNA1, rfl, fun c hc => by cases c <;> first | rfl | exact absurd hc (by decide)⟩
    | FST1 => exact ⟨.hkDataChunkFST1, rfl, fun c hc => by cases c <;> first | rfl | exact absurd hc (by decide)⟩
    | TBDY => exact ⟨.hkDataChunkTBDY, rfl, fun c hc => by cases c <;> first | rfl | exact absurd hc (by decide)⟩
    | THSH => exact ⟨.hkDataChunkTHSH, rfl, fun c hc => by cases c <;> first | rfl | exact absurd hc (by decide)⟩
    | TPAD => exact ⟨.hkDataChunkTPAD, rfl, fun c hc => by cases c <;> first | rfl | exact absurd hc (by decide)⟩
    | INDX => exact ⟨.hkDataChunkINDX, rfl, fun c hc => by cases c <;> first | rfl | exact absurd hc (by decide)⟩
    | ITEM => exact ⟨.hkDataChunkITEM, rfl, fun c hc => by cases c <;> first | rfl | exact absurd hc (by decide)⟩
    | PTCH => exact ⟨.hkDataChunkPTCH, rfl, fun c hc => by cases c <;> first | rfl | exact absurd hc (by decide)⟩

end hkphysics

namespace hktypes

open hkreflex

/-! ## Lemmas on field lists -/

theorem lookupField_replaceField_self (name : String) (value : hkClassInstance) :
    ∀ (fields : List (String × hkClassInstance)) (old : hkClassInstance),
      lookupField name fields = some old →
      lookupField name (replaceField name value fields) = some value := by
  intro fields
  induction fields with
  | nil => intro old h; simp [lookupField] at h
  | cons entry rest ih =>
    intro old h
    obtain ⟨n, i⟩ := entry
    by_cases hn : n = name
    · simp [replaceField, lookupField, hn]
    · simp only [lookupField, hn, if_false] at h
      simp [replaceField, lookupField, hn, ih old h]

theorem lookupField_replaceField_of_ne (name other : String) (value : hkClassInstance)
    (hne : name ≠ other) :
    ∀ fields : List (String × hkClassInstance),
      lookupField name (replaceField other value fields) = lookupField name fields := by
  intro fields
  induction fields with
  | nil => simp [replaceField]
  | cons entry rest ih =>
    obtain ⟨n, i⟩ := entry
    have hne' : ¬ other = name := fun h => hne h.symm
    by_cases hn : n = other
    · subst hn
      simp [replaceField, lookupField, hne']
    · by_cases hn' : n = name
      · subst hn'
        simp [replaceField, lookupField, hn]
      · simp [replaceField, lookupField, hn, hn', ih]

theorem wrongType_record (type_name : String) (fields : List (String × hkClassInstance)) :
    hclBoneSpaceSkinPNOperator.wrongType (dynamic_cast (some (.Record type_name fields)))
      = (type_name != "hclBoneSpaceSkinPNOperator") := by
  simp [hclBoneSpaceSkinPNOperator.wrongType, dynamic_cast]

theorem fromInstance_not_record {Parent PNs UnpackedPNs : Type}
    (env : Collaborators Parent PNs UnpackedPNs)
    (self : hclBoneSpaceSkinPNOperator Parent PNs UnpackedPNs)
    (inst : Option hkClassInstance) (hcast : dynamic_cast inst = none) :
    hclBoneSpaceSkinPNOperator.FromInstance env self inst = (Outcome.fault, self) := by
  simp [hclBoneSpaceSkinPNOperator.FromInstance, hcast, hclBoneSpaceSkinPNOperator.wrongType]

theorem fromInstance_of_parent_returned {Parent PNs UnpackedPNs : Type}
    (env : Collaborators Parent PNs UnpackedPNs)
    (self : hclBoneSpaceSkinPNOperator Parent PNs UnpackedPNs)
    (fields : List (String × hkClassInstance))
    (parent pns unpacked : hkClassInstance) (b : Bool) (base : Parent)
    (hparent : lookupField "class_parent" fields = some parent)
    (hpns : lookupField "localPNs" fields = some pns)
    (hunpacked : lookupField "localUnpackedPNs" fields = some unpacked)
    (hcall : env.parentFromInstance self.base (some parent) = (Outcome.returned b, base)) :
    hclBoneSpaceSkinPNOperator.FromInstance env self
        (some (.Record "hclBoneSpaceSkinPNOperator" fields))
      = (Outcome.returned true,
          { base := base,
            localPNs := env.GetValuePNs pns self.localPNs,
            localUnpackedPNs := env.GetValueUnpackedPNs unpacked self.localUnpackedPNs }) := by
  have hwrong : hclBoneSpaceSkinPNOperator.wrongType
      (dynamic_cast (some (.Record "hclBoneSpaceSkinPNOperator" fields))) = false := by
    rw [wrongType_record]; decide
  simp only [hclBoneSpaceSkinPNOperator.FromInstance, hwrong, Bool.and_false]
  simp [dynamic_cast, hkClassRecordInstance.GetInstanceByFieldName, hparent, hpns, hunpacked,
    hcall]

/-- The field list that `ToInstance` leaves: the parent's write under
`"class_parent"`, then the two `SetValue`s. -/
theorem toInstance_of_parent_returned {Parent PNs UnpackedPNs : Type}
    (env : Collaborators Parent PNs UnpackedPNs)
    (self : hclBoneSpaceSkinPNOperator Parent PNs UnpackedPNs)
    (fields : List (String × hkClassInstance))
    (parent pns unpacked parent' : hkClassInstance) (b : Bool) (base : Parent)
    (hparent : lookupField "class_parent" fields = some parent)
    (hpns : lookupField "localPNs" fields = some pns)
    (hunpacked : lookupField "localUnpackedPNs" fields = some unpacked)
    (hcall : env.parentToInstance self.base (some parent)
      = (Outcome.returned b, base, some parent')) :
    hclBoneSpaceSkinPNOperator.ToInstance env self
        (some (.Record "hclBoneSpaceSkinPNOperator" fields))
      = (Outcome.returned true, { self with base := base },
          some (.Record "hclBoneSpaceSkinPNOperator"
            (replaceField "localUnpackedPNs"
              (env.SetValueUnpackedPNs unpacked self.localUnpackedPNs)
              (replaceField "localPNs" (env.SetValuePNs pns self.localPNs)
                (replaceField "class_parent" parent' fields))))) := by
  have hwrong : hclBoneSpaceSkinPNOperator.wrongType
      (dynamic_cast (some (.Record "hclBoneSpaceSkinPNOperator" fields))) = false := by
    rw [wrongType_record]; decide
  have h1 : lookupField "localPNs" (replaceField "class_parent" parent' fields) = some pns := by
    rw [lookupField_replaceField_of_ne _ _ _ (by decide), hpns]
  have h2 : lookupField "localUnpackedPNs"
      (replaceField "localPNs" (env.SetValuePNs pns self.localPNs)
        (replaceField "class_parent" parent' fields)) = some unpacked := by
    rw [lookupField_replaceField_of_ne _ _ _ (by decide),
      lookupField_replaceField_of_ne _ _ _ (by decide), hunpacked]
  simp only [hclBoneSpaceSkinPNOperator.ToInstance, hwrong, Bool.and_false]
  simp [dynamic_cast, hkClassRecordInstance.GetInstanceByFieldName, hkClassRecordInstance.store,
    hkClassRecordInstance.toInstance, hparent, hcall, h1, h2]

theorem sampleGetValue_sampleSetValue (i : hkClassInstance) (value old : List Int) :
    sampleGetValue (sampleSetValue i value) old = value := by
  simp only [sampleGetValue, sampleSetValue, List.filterMap_map]
  induction value with
  | nil => rfl
  | cons v rest ih => simp [List.filterMap_cons, ih]

/-! ## Theorems -/

/-- C4: with the type-name check compiled in, for every record instance whose
type name differs from `"hclBoneSpaceSkinPNOperator"`, `FromInstance` ends in
the `throw;` of the check, after printing its message, and the adapter's
members are what they were: `localPNs`, `localUnpackedPNs` and the inherited
members. This holds whatever the parent adapter would do, so it was not
invoked. -/
theorem fromInstance_wrong_type {Parent PNs UnpackedPNs : Type}
    (env : Collaborators Parent PNs UnpackedPNs)
    (self : hclBoneSpaceSkinPNOperator Parent PNs UnpackedPNs)
    (type_name : String) (fields : List (String × hkClassInstance))
    (hcheck : env.NO_HK_TYPENAME_CHECK = false)
    (hname : type_name ≠ "hclBoneSpaceSkinPNOperator") :
    hclBoneSpaceSkinPNOperator.FromInstance env self (some (.Record type_name fields))
      = (Outcome.threw "hclBoneSpaceSkinPNOperator::FromInstance: Wrong type!", self) := by
  simp [hclBoneSpaceSkinPNOperator.FromInstance, wrongType_record, hcheck, hname]

/-- C4 on a record of type `"Wrong"` that has all three fields, with a parent
adapter that would count its call: the call throws and the count stays 0. -/
theorem fromInstance_wrong_type_witness :
    hclBoneSpaceSkinPNOperator.FromInstance (sampleCollaborators false) sampleAdapter
        (some (.Record "Wrong" sampleFields))
      = (Outcome.threw "hclBoneSpaceSkinPNOperator::FromInstance: Wrong type!", sampleAdapter) :=
  fromInstance_wrong_type (sampleCollaborators false) sampleAdapter "Wrong" sampleFields
    rfl (by decide)

/-- C6: `ToInstance` followed by `FromInstance` gives the adapter's own fields
back. For adapters `a` and `b` and a record `r` of type
`"hclBoneSpaceSkinPNOperator"` with the fields `"class_parent"`, `"localPNs"`
and `"localUnpackedPNs"`, where `GetValue` returns what `SetValue` stored and
the parent adapter's `ToInstance` on `"class_parent"` and its `FromInstance` on
what that left both return: `a.ToInstance(r)` returns `true`, then
`b.FromInstance(r)` returns `true`, and afterwards `b.localPNs` is
`a.localPNs` and `b.localUnpackedPNs` is `a.localUnpackedPNs`. -/
theorem toInstance_fromInstance_roundtrip {Parent PNs UnpackedPNs : Type}
    (env : Collaborators Parent PNs UnpackedPNs)
    (a b : hclBoneSpaceSkinPNOperator Parent PNs UnpackedPNs)
    (fields : List (String × hkClassInstance))
    (parent pns unpacked parent' : hkClassInstance) (ta tb : Bool) (baseA baseB : Parent)
    (hparent : lookupField "class_parent" fields = some parent)
    (hpns : lookupField "localPNs" fields = some pns)
    (hunpacked : lookupField "localUnpackedPNs" fields = some unpacked)
    (hPNs : ∀ i value old, env.GetValuePNs (env.SetValuePNs i value) old = value)
    (hUnpackedPNs : ∀ i value old,
      env.GetValueUnpackedPNs (env.SetValueUnpackedPNs i value) old = value)
    (hto : env.parentToInstance a.base (some parent) = (Outcome.returned ta, baseA, some parent'))
    (hfrom : env.parentFromInstance b.base (some parent') = (Outcome.returned tb, baseB)) :
    ∃ a' r' b',
      hclBoneSpaceSkinPNOperator.ToInstance env a
          (some (.Record "hclBoneSpaceSkinPNOperator" fields))
        = (Outcome.returned true, a', some r') ∧
      hclBoneSpaceSkinPNOperator.FromInstance env b (some r') = (Outcome.returned true, b') ∧
      b'.localPNs = a.localPNs ∧ b'.localUnpackedPNs = a.localUnpackedPNs := by
  have hwritten := toInstance_of_parent_returned env a fields parent pns unpacked parent' ta baseA
    hparent hpns hunpacked hto
  have h1 : lookupField "class_parent"
      (replaceField "localUnpackedPNs" (env.SetValueUnpackedPNs unpacked a.localUnpackedPNs)
        (replaceField "localPNs" (env.SetValuePNs pns a.localPNs)
          (replaceField "class_parent" parent' fields))) = some parent' := by
    rw [lookupField_replaceField_of_ne _ _ _ (by decide),
      lookupField_replaceField_of_ne _ _ _ (by decide)]
    exact lookupField_replaceField_self _ _ _ _ hparent
  have h2' : lookupField "localPNs" (replaceField "class_parent" parent' fields) = some pns := by
    rw [lookupField_replaceField_of_ne _ _ _ (by decide), hpns]
  have h2 : lookupField "localPNs"
      (replaceField "localUnpackedPNs" (env.SetValueUnpackedPNs unpacked a.localUnpackedPNs)
        (replaceField "localPNs" (env.SetValuePNs pns a.localPNs)
          (replaceField "class_parent" parent' fields)))
        = some (env.SetValuePNs pns a.localPNs) := by
    rw [lookupField_replaceField_of_ne _ _ _ (by decide)]
    exact lookupField_replaceField_self _ _ _ _ h2'
  have h3' : lookupField "localUnpackedPNs"
      (replaceField "localPNs" (env.SetValuePNs pns a.localPNs)
        (replaceField "class_parent" parent' fields)) = some unpacked := by
    rw [lookupField_replaceField_of_ne _ _ _ (by decide),
      lookupField_replaceField_of_ne _ _ _ (by decide), hunpacked]
  have h3 := lookupField_replaceField_self "localUnpackedPNs"
    (env.SetValueUnpackedPNs unpacked a.localUnpackedPNs) _ _ h3'
  have hread := fromInstance_of_parent_returned env b _ parent'
    (env.SetValuePNs pns a.localPNs) (env.SetValueUnpackedPNs unpacked a.localUnpackedPNs)
    tb baseB h1 h2 h3 hfrom
  exact ⟨_, _, _, hwritten, hread, hPNs _ _ _, hUnpackedPNs _ _ _⟩

/-- C6 on the example record and collaborators: writing the example adapter and
reading into an adapter with other values returns `true` both times and gives
`[10]` and `[20, 30]` back. -/
theorem toInstance_fromInstance_roundtrip_witness :
    ∃ a' r' b',
      hclBoneSpaceSkinPNOperator.ToInstance (sampleCollaborators false) sampleAdapter
          (some (.Record "hclBoneSpaceSkinPNOperator" sampleFields))
        = (Outcome.returned true, a', some r') ∧
      hclBoneSpaceSkinPNOperator.FromInstance (sampleCollaborators false)
          { base := 5, localPNs := [], localUnpackedPNs := [] } (some r')
        = (Outcome.returned true, b') ∧
      b'.localPNs = [10] ∧ b'.localUnpackedPNs = [20, 30] :=
  toInstance_fromInstance_roundtrip (sampleCollaborators false) sampleAdapter
    { base := 5, localPNs := [], localUnpackedPNs := [] } sampleFields
    (.Record "hclBoneSpaceSkinOperator" []) (.Array [.Primitive 1, .Primitive 2])
    (.Array [.Primitive 3]) (.Record "hclBoneSpaceSkinOperator" []) true true 1 6
    rfl rfl rfl sampleGetValue_sampleSetValue sampleGetValue_sampleSetValue rfl rfl

/-- C8, the claim as stated fails: in a build that defines
`NO_HK_TYPENAME_CHECK`, `FromInstance` returns `true` on a record of type
`"Wrong"` that has the three fields. -/
theorem fromInstance_unchecked_returns_true :
    hclBoneSpaceSkinPNOperator.FromInstance (sampleCollaborators true) sampleAdapter
        (some (.Record "Wrong" sampleFields))
      = (Outcome.returned true, { base := 1, localPNs := [1, 2], localUnpackedPNs := [3] }) ∧
    "Wrong" ≠ "hclBoneSpaceSkinPNOperator" :=
  ⟨rfl, by decide⟩

/-- C8, amended: with the type-name check compiled in, for every record
instance passed to `FromInstance`, if the call returns `true` then the
record's type name is exactly `"hclBoneSpaceSkinPNOperator"`. -/
theorem fromInstance_true_type_name {Parent PNs UnpackedPNs : Type}
    (env : Collaborators Parent PNs UnpackedPNs)
    (self : hclBoneSpaceSkinPNOperator Parent PNs UnpackedPNs)
    (type_name : String) (fields : List (String × hkClassInstance))
    (hcheck : env.NO_HK_TYPENAME_CHECK = false)
    (hreturn : (hclBoneSpaceSkinPNOperator.FromInstance env self
      (some (.Record type_name fields))).1 = Outcome.returned true) :
    type_name = "hclBoneSpaceSkinPNOperator" := by
  by_contra hname
  have hthrow : hclBoneSpaceSkinPNOperator.FromInstance env self (some (.Record type_name fields))
      = (Outcome.threw "hclBoneSpaceSkinPNOperator::FromInstance: Wrong type!", self) := by
    simp [hclBoneSpaceSkinPNOperator.FromInstance, wrongType_record, hcheck, hname]
  rw [hthrow] at hreturn
  exact Outcome.noConfusion hreturn

/-- C8 amended, on the example record: the call returns `true`, and the type
name is the expected one. -/
theorem fromInstance_true_type_name_witness :
    (hclBoneSpaceSkinPNOperator.FromInstance (sampleCollaborators false) sampleAdapter
      (some (.Record "hclBoneSpaceSkinPNOperator" sampleFields))).1 = Outcome.returned true ∧
    "hclBoneSpaceSkinPNOperator" = "hclBoneSpaceSkinPNOperator" :=
  ⟨rfl, fromInstance_true_type_name (sampleCollaborators false) sampleAdapter
    "hclBoneSpaceSkinPNOperator" sampleFields rfl rfl⟩

end hktypes

namespace hkphysics

/-! ## Lemmas on `ReleaseBuffer` -/

theorem tag0_releaseBuffer_eq (c : hkDataChunkTAG0) :
    c.ReleaseBuffer = { c with _buffer := none } := by
  unfold hkDataChunkTAG0.ReleaseBuffer
  cases h : c._buffer with
  | none => cases c; simp_all
  | some buf => rfl

/-! ## Theorems -/

/-- C11: for every chunk, of any class and in any state, `ReleaseBuffer()` leaves
`GetBuffer()` null and changes nothing else: `GetBufferSize()`, `data_size`,
`chunk_decorator`, `type_name`, the children, the address and class of the
object and the decoded members `sdk_version` and `type_names` keep their
values. Calling it twice gives the state that calling it once gives, and on a
chunk whose buffer is null (none was ever set) it changes nothing at all. -/
theorem releaseBuffer_frame (t : hkDataChunkBase) :
    t.ReleaseBuffer.object.tag0.GetBuffer = none ∧
    t.ReleaseBuffer.object.tag0.GetBufferSize = t.object.tag0.GetBufferSize ∧
    t.ReleaseBuffer.object.tag0.data_size = t.object.tag0.data_size ∧
    t.ReleaseBuffer.object.tag0.chunk_decorator = t.object.tag0.chunk_decorator ∧
    t.ReleaseBuffer.object.tag0.type_name = t.object.tag0.type_name ∧
    t.ReleaseBuffer.children = t.children ∧
    t.ReleaseBuffer.self = t.self ∧
    t.ReleaseBuffer.object.cls = t.object.cls ∧
    t.ReleaseBuffer.object.sdk_version = t.object.sdk_version ∧
    t.ReleaseBuffer.object.type_names = t.object.type_names ∧
    t.ReleaseBuffer.ReleaseBuffer = t.ReleaseBuffer ∧
    (t.object.tag0.GetBuffer = none → t.ReleaseBuffer = t) := by
  cases t with
  | node self object children =>
    cases object <;>
      simp [hkDataChunkBase.ReleaseBuffer, hkDataChunkBase.object, hkDataChunkBase.children,
        hkDataChunkBase.self, ChunkObject.ReleaseBuffer, ChunkObject.tag0, ChunkObject.cls,
        ChunkObject.sdk_version, ChunkObject.type_names, hkDataChunkSDKV.ReleaseBuffer,
        hkDataChunkTST1.ReleaseBuffer, tag0_releaseBuffer_eq, hkDataChunkTAG0.GetBuffer,
        hkDataChunkTAG0.GetBufferSize] <;>
      intro h <;> simp [← h]

/-- C12: for every 16-bit `data_size`, `GetActualDataSize()` is `data_size - 8`
reduced modulo `2^32`: it is `data_size - 8`, at most 65527, when
`data_size >= 8`, and `2^32 - 8 + data_size`, at least 4294967288, when
`data_size < 8`; for `data_size` 0 it is 4294967288. -/
theorem getActualDataSize_wraps (c : hkDataChunkTAG0) (h16 : c.data_size < 2 ^ 16) :
    (c.GetActualDataSize : Int) = ((c.data_size : Int) - 8) % 2 ^ 32 ∧
    (8 ≤ c.data_size → c.GetActualDataSize = c.data_size - 8 ∧ c.GetActualDataSize ≤ 65527) ∧
    (c.data_size < 8 →
      c.GetActualDataSize = 2 ^ 32 - 8 + c.data_size ∧ 4294967288 ≤ c.GetActualDataSize) ∧
    (c.data_size = 0 → c.GetActualDataSize = 4294967288) := by
  unfold hkDataChunkTAG0.GetActualDataSize
  refine ⟨?_, ?_, ?_, ?_⟩ <;> omega

/-- C12 on a freshly constructed chunk, whose `data_size` is 0: it reports a
payload of 4294967288 bytes. -/
theorem getActualDataSize_wraps_witness :
    ({} : hkDataChunkTAG0).data_size < 2 ^ 16 ∧
    ({} : hkDataChunkTAG0).GetActualDataSize = 4294967288 :=
  ⟨by decide, (getActualDataSize_wraps {} (by decide)).2.2.2 rfl⟩

end hkphysics

namespace hkphysics

/-! ## Lemmas on the TST1 loop over any buffer -/

theorem DecodeLoop_visited (rest : List Byte) :
    ∀ (pre extra acc : List Byte) (names : List (List Byte)) (fuel : Nat),
      rest.length ≤ fuel →
      hkDataChunkTST1.DecodeLoop (some (pre ++ rest ++ extra)) (pre.length + rest.length) fuel
          pre.length acc names
        = (Outcome.returned true, names ++ splitAtZeros acc rest) := by
  induction rest with
  | nil =>
    intro pre extra acc names fuel _
    cases fuel <;> simp [hkDataChunkTST1.DecodeLoop, splitAtZeros]
  | cons b rest ih =>
    intro pre extra acc names fuel hfuel
    cases fuel with
    | zero => simp at hfuel
    | succ fuel =>
      have hfuel' : rest.length ≤ fuel := by simpa using hfuel
      have hget : (pre ++ b :: rest ++ extra)[pre.length]? = some b := by
        rw [List.append_assoc, List.getElem?_append_right (Nat.le_refl _)]; simp
      have hpre : pre ++ b :: rest ++ extra = (pre ++ [b]) ++ rest ++ extra := by simp
      have hlen : pre.length + (b :: rest).length = (pre ++ [b]).length + rest.length := by
        simp; omega
      have hpos : pre.length + 1 = (pre ++ [b]).length := by simp
      have hlt : pre.length < pre.length + (b :: rest).length := by simp
      have ih1 := ih (pre ++ [b]) extra [] (names ++ [acc]) fuel hfuel'
      have ih2 := ih (pre ++ [b]) extra (acc ++ [b]) names fuel hfuel'
      rw [← hpre, ← hlen, ← hpos] at ih1 ih2
      unfold hkDataChunkTST1.DecodeLoop
      simp only [hlt, if_true, hget]
      by_cases hb : b = 0
      · simp only [hb, if_true]
        rw [hb] at ih1
        rw [ih1]
        simp [splitAtZeros]
      · simp only [hb, if_false]
        rw [ih2]
        simp [splitAtZeros, hb]

theorem DecodeLoop_of_le (buffer : Option (List Byte)) (size fuel pos : Nat) (acc : List Byte)
    (names : List (List Byte)) (h : size ≤ pos) :
    hkDataChunkTST1.DecodeLoop buffer size fuel pos acc names = (Outcome.returned true, names) := by
  have hlt : ¬ pos < size := by omega
  cases fuel <;> simp [hkDataChunkTST1.DecodeLoop, hlt]

theorem DecodeLoop_outcome (buffer : Option (List Byte)) (size : Nat) :
    ∀ (fuel pos : Nat) (acc : List Byte) (names : List (List Byte)), size ≤ pos + fuel →
      (hkDataChunkTST1.DecodeLoop buffer size fuel pos acc names).1 = Outcome.returned true ∨
      (hkDataChunkTST1.DecodeLoop buffer size fuel pos acc names).1 = Outcome.fault := by
  intro fuel
  induction fuel with
  | zero =>
    intro pos acc names h
    have hlt : ¬ pos < size := by omega
    simp [hkDataChunkTST1.DecodeLoop, hlt]
  | succ fuel ih =>
    intro pos acc names h
    unfold hkDataChunkTST1.DecodeLoop
    by_cases hlt : pos < size
    · simp only [hlt, if_true]
      cases buffer with
      | none => simp
      | some buf =>
        cases hget : buf[pos]? with
        | none => simp [hget]
        | some b =>
          have h1 := ih (pos + 1) [] (names ++ [acc]) (by omega)
          have h2 := ih (pos + 1) (acc ++ [b]) names (by omega)
          by_cases hb : b = 0
          · simpa [hget, hb] using h1
          · simpa [hget, hb] using h2
    · simp [hlt]

theorem DecodeLoop_prefix (buffer : Option (List Byte)) (size : Nat) :
    ∀ (fuel pos : Nat) (acc : List Byte) (names : List (List Byte)),
      names <+: (hkDataChunkTST1.DecodeLoop buffer size fuel pos acc names).2 := by
  intro fuel
  induction fuel with
  | zero =>
    intro pos acc names
    unfold hkDataChunkTST1.DecodeLoop
    split <;> exact List.prefix_refl _
  | succ fuel ih =>
    intro pos acc names
    unfold hkDataChunkTST1.DecodeLoop
    by_cases hlt : pos < size
    · simp only [hlt, if_true]
      cases buffer with
      | none => exact List.prefix_refl _
      | some buf =>
        cases hget : buf[pos]? with
        | none => simp [hget]
        | some b =>
          have h1 := (List.prefix_append names [acc]).trans (ih (pos + 1) [] (names ++ [acc]))
          have h2 := ih (pos + 1) (acc ++ [b]) names
          by_cases hb : b = 0
          · simpa [hget, hb] using h1
          · simpa [hget, hb] using h2
    · simp only [hlt, if_false]
      exact List.prefix_refl _

theorem splitAtZeros_length (l : List Byte) :
    ∀ acc : List Byte, (splitAtZeros acc l).length = l.count 0 := by
  induction l with
  | nil => intro acc; simp [splitAtZeros]
  | cons b rest ih =>
    intro acc
    by_cases hb : b = 0
    · subst hb; simp [splitAtZeros, ih]
    · have hb' : ¬ (0 : Byte) = b := fun h => hb h.symm
      simp [splitAtZeros, hb, ih, List.count_cons, hb']

theorem splitAtZeros_no_zero (l : List Byte) :
    ∀ acc : List Byte, (0 : Byte) ∉ acc → ∀ name ∈ splitAtZeros acc l, (0 : Byte) ∉ name := by
  induction l with
  | nil => intro acc _ name hname; simp [splitAtZeros] at hname
  | cons b rest ih =>
    intro acc hacc name hname
    by_cases hb : b = 0
    · simp only [splitAtZeros, hb, if_true, List.mem_cons] at hname
      rcases hname with h | h
      · rw [h]; exact hacc
      · exact ih [] (by simp) name h
    · simp only [splitAtZeros, hb, if_false] at hname
      have hacc' : (0 : Byte) ∉ acc ++ [b] := by
        simp only [List.mem_append, List.mem_singleton, not_or]
        exact ⟨hacc, fun h => hb h.symm⟩
      exact ih (acc ++ [b]) hacc' name hname

theorem zeroTerminated_splitAtZeros (l : List Byte) :
    ∀ acc : List Byte,
      zeroTerminated (splitAtZeros acc l) ++ afterLastZero acc l = acc ++ l := by
  induction l with
  | nil => intro acc; simp [splitAtZeros, afterLastZero, zeroTerminated]
  | cons b rest ih =>
    intro acc
    by_cases hb : b = 0
    · subst hb
      simp [splitAtZeros, afterLastZero, zeroTerminated, ih]
    · simp [splitAtZeros, afterLastZero, hb, ih]

theorem afterLastZero_no_zero (l : List Byte) :
    ∀ acc : List Byte, (0 : Byte) ∉ acc → (0 : Byte) ∉ afterLastZero acc l := by
  induction l with
  | nil => intro acc hacc; simpa [afterLastZero] using hacc
  | cons b rest ih =>
    intro acc hacc
    by_cases hb : b = 0
    · simp only [afterLastZero, hb, if_true]
      exact ih [] (by simp)
    · simp only [afterLastZero, hb, if_false]
      apply ih
      simp only [List.mem_append, List.mem_singleton, not_or]
      exact ⟨hacc, fun h => hb h.symm⟩

theorem splitAtZeros_eq_nil_iff (l : List Byte) :
    ∀ acc : List Byte, splitAtZeros acc l = [] ↔ (0 : Byte) ∉ l := by
  intro acc
  rw [← List.length_eq_zero, splitAtZeros_length, List.count_eq_zero]

theorem visited_of_le (c : hkDataChunkTST1) (h : c._buffer_size ≤ 8) : c.visited = [] := by
  unfold hkDataChunkTST1.visited
  apply List.drop_eq_nil_of_le
  rw [List.length_take]
  omega

theorem tst1_decode_of_readable (c : hkDataChunkTST1) (hread : c.readable) :
    c.Decode = (Outcome.returned true,
      { c with type_names := c.type_names ++ splitAtZeros [] c.visited }) := by
  by_cases h8 : c._buffer_size ≤ 8
  · simp [hkDataChunkTST1.Decode, hkDataChunkTAG0.GetBufferSize,
      DecodeLoop_of_le c._buffer c._buffer_size c._buffer_size 8 [] c.type_names h8,
      visited_of_le c h8, splitAtZeros]
  · rcases hread with h | ⟨buf, hbuf, hlen⟩
    · exact absurd h h8
    · have hvis : c.visited = (buf.take c._buffer_size).drop 8 := by
        simp [hkDataChunkTST1.visited, hbuf]
      have hsplit : buf = buf.take 8 ++ (buf.take c._buffer_size).drop 8
          ++ buf.drop c._buffer_size := by
        have h1 : buf.take 8 = (buf.take c._buffer_size).take 8 := by
          rw [List.take_take, Nat.min_eq_left (by omega)]
        rw [h1, List.take_append_drop, List.take_append_drop]
      have hpre : (buf.take 8).length = 8 := by
        rw [List.length_take]; omega
      have hrest : ((buf.take c._buffer_size).drop 8).length = c._buffer_size - 8 := by
        rw [List.length_drop, List.length_take]; omega
      have hloop := DecodeLoop_visited ((buf.take c._buffer_size).drop 8) (buf.take 8)
        (buf.drop c._buffer_size) [] c.type_names c._buffer_size (by omega)
      rw [← hsplit, hpre, hrest, show 8 + (c._buffer_size - 8) = c._buffer_size by omega] at hloop
      simp [hkDataChunkTST1.Decode, hkDataChunkTAG0.GetBufferSize, hbuf, hloop, hvis]

end hkphysics

namespace hkphysics

/-! ## Theorems -/

/-- C13, the claim as stated fails: not every buffer and buffer size lets
`hkDataChunkTST1::Decode()` return. After `SetBuffer(nullptr, 16)` the loop
reads `_buffer[8]` through the null pointer and nothing is appended. With a
buffer of 12 bytes and the buffer size 16 the loop appends `"Foo"` and then
reads `_buffer[12]` outside the buffer. Neither call returns `true`. -/
theorem tst1_decode_unreadable_faults :
    unsetTST1._buffer = none ∧ unsetTST1._buffer_size = 16 ∧
    unsetTST1.Decode = (Outcome.fault, unsetTST1) ∧
    unsetTST1.Decode.1 ≠ Outcome.returned true ∧
    shortTST1._buffer_size = 16 ∧ (shortTST1._buffer.getD []).length = 12 ∧
    shortTST1.Decode = (Outcome.fault, { shortTST1 with type_names := [[70, 111, 111]] }) ∧
    shortTST1.Decode.1 ≠ Outcome.returned true := by
  decide

/-- C13, amended: for every buffer and buffer size such that the buffer holds at
least that many bytes or the size is 8 or less, `hkDataChunkTST1::Decode()`
returns `true` and appends to `type_names` exactly as many names as there are
zero bytes at the positions `8 <= i < buffer_size`. No appended name contains a
zero byte; the appended names, each followed by one zero byte, reproduce these
bytes up to and including the last zero byte, and the bytes after it, which
hold no zero byte, are dropped. With a buffer size of 8 or less nothing is
appended and the chunk is unchanged. The outcome and the resulting `type_names`
are the same for any two such chunks that agree on `type_names` and on the bytes
at these positions, so they do not depend on `data_size` nor on the first 8
bytes. -/
theorem tst1_decode_general (c : hkDataChunkTST1) (hread : c.readable) :
    c.Decode = (Outcome.returned true,
      { c with type_names := c.type_names ++ splitAtZeros [] c.visited }) ∧
    (splitAtZeros [] c.visited).length = c.visited.count 0 ∧
    (∀ name ∈ splitAtZeros [] c.visited, (0 : Byte) ∉ name) ∧
    zeroTerminated (splitAtZeros [] c.visited) ++ afterLastZero [] c.visited = c.visited ∧
    (0 : Byte) ∉ afterLastZero [] c.visited ∧
    (c._buffer_size ≤ 8 → c.Decode = (Outcome.returned true, c)) ∧
    (∀ c' : hkDataChunkTST1, c'.readable → c'.visited = c.visited →
      c'.type_names = c.type_names →
      c'.Decode.1 = c.Decode.1 ∧ c'.Decode.2.type_names = c.Decode.2.type_names) := by
  have hdec := tst1_decode_of_readable c hread
  refine ⟨hdec, splitAtZeros_length _ _, splitAtZeros_no_zero _ _ (by simp), ?_,
    afterLastZero_no_zero _ _ (by simp), ?_, ?_⟩
  · simpa using zeroTerminated_splitAtZeros c.visited []
  · intro h8
    rw [hdec, visited_of_le c h8]
    simp [splitAtZeros]
  · intro c' hread' hvis hnames
    rw [hdec, tst1_decode_of_readable c' hread', hvis, hnames]
    exact ⟨rfl, rfl⟩

/-- C13 amended, on the sample chunk: its 16-byte buffer is readable and the
decoded names are `"Foo"` and `"Bar"`. -/
theorem tst1_decode_general_witness :
    sampleTST1.readable ∧
    sampleTST1.Decode = (Outcome.returned true,
      { sampleTST1 with
        type_names := sampleTST1.type_names ++ splitAtZeros [] sampleTST1.visited }) ∧
    splitAtZeros [] sampleTST1.visited = [[70, 111, 111], [66, 97, 114]] ∧
    sampleTST1.Decode
      = (Outcome.returned true,
          { sampleTST1 with type_names := [[70, 111, 111], [66, 97, 114]] }) :=
  ⟨Or.inr ⟨_, rfl, by decide⟩,
   (tst1_decode_general sampleTST1 (Or.inr ⟨_, rfl, by decide⟩)).1, by decide, by decide⟩

end hkphysics

namespace hkphysics

/-! ## Lemmas on repeated decoding -/

theorem tst1_decode_readable (c : hkDataChunkTST1) (names : List (List Byte))
    (hread : c.readable) : ({ c with type_names := names } : hkDataChunkTST1).readable :=
  hread

theorem tst1_decode_twice (c : hkDataChunkTST1) (hread : c.readable) :
    c.Decode.2.Decode = (Outcome.returned true,
      { c with type_names :=
          c.type_names ++ splitAtZeros [] c.visited ++ splitAtZeros [] c.visited }) := by
  rw [tst1_decode_of_readable c hread]
  exact tst1_decode_of_readable _ (tst1_decode_readable c _ hread)

theorem sdkv_decode_twice (c : hkDataChunkSDKV) : c.Decode.2.Decode = c.Decode := by
  unfold hkDataChunkSDKV.Decode
  cases h : Util.readStringFromBuffer c._buffer 8 c.GetActualDataSize with
  | none => simp [h]
  | some s => simp [h]

theorem sdkv_decode_overwrites (c : hkDataChunkSDKV) (previous : List Byte) :
    ({ c with sdk_version := previous } : hkDataChunkSDKV).Decode.1 = c.Decode.1 ∧
    (c.Decode.1 = Outcome.returned true →
      ({ c with sdk_version := previous } : hkDataChunkSDKV).Decode.2 = c.Decode.2) := by
  unfold hkDataChunkSDKV.Decode
  cases h : Util.readStringFromBuffer c._buffer 8 c.GetActualDataSize with
  | none => simp [h]
  | some s => simp [h]

theorem readStringFromBuffer_of_buffer (c : hkDataChunkTAG0) (buf : List Byte)
    (h8 : 8 ≤ c.data_size) (h16 : c.data_size < 2 ^ 16) (hlen : c.data_size ≤ buf.length) :
    Util.readStringFromBuffer (some buf) 8 c.GetActualDataSize
      = some (((buf.drop 8).take (c.data_size - 8)).takeWhile (fun b => b ≠ 0)) := by
  have hsplit : buf = buf.take 8 ++ buf.drop 8 := (List.take_append_drop 8 buf).symm
  have hpre : (buf.take 8).length = 8 := by simp; omega
  have hscan := readStringScan_eq (c.data_size - 8) (buf.take 8) (buf.drop 8) []
    (by simp; omega)
  rw [← hsplit, hpre] at hscan
  simp [Util.readStringFromBuffer, GetActualDataSize_of_le c h8 h16, hscan]

theorem object_decode_outcome (o : ChunkObject) :
    o.Decode.1 = Outcome.returned true ∨ o.Decode.1 = Outcome.fault := by
  cases o with
  | SDKV c =>
    simp only [ChunkObject.Decode, hkDataChunkSDKV.Decode]
    cases h : Util.readStringFromBuffer c._buffer 8 c.GetActualDataSize <;> simp [h]
  | TST1 c =>
    simp only [ChunkObject.Decode, hkDataChunkTST1.Decode]
    exact DecodeLoop_outcome c._buffer c.GetBufferSize c.GetBufferSize 8 [] c.type_names
      (by omega)
  | _ => left; rfl

/-! ## Theorems -/

/-- C14: `hkDataChunkTST1::Decode()` appends and never clears: in every state
the `type_names` held before the call is a prefix of the `type_names` held
after it. Where the loop reads inside the buffer, decoding twice appends the
decoded names twice, so on a fresh chunk the result is the decoded list
followed by itself, and the second call changes nothing exactly when no zero
byte lies at a position `8 <= i < buffer_size`. `hkDataChunkSDKV::Decode()`
overwrites `sdk_version`: whenever the scan of the buffer gives a string, and
so whenever `data_size` is at least 8 and the buffer holds at least `data_size`
bytes, the call returns `true` with `sdk_version` equal to that string whatever
it held before, and every other member as it was; a second call then returns
`true` with the same state. In every state decoding twice gives what decoding
once gives, and how the call ends does not depend on the previous value. -/
theorem decode_append_vs_overwrite :
    (∀ c : hkDataChunkTST1, c.type_names <+: c.Decode.2.type_names) ∧
    (∀ c : hkDataChunkTST1, c.readable →
      c.Decode.2.Decode = (Outcome.returned true,
        { c with type_names :=
            c.type_names ++ splitAtZeros [] c.visited ++ splitAtZeros [] c.visited })) ∧
    (∀ c : hkDataChunkTST1, c.readable → c.type_names = [] →
      c.Decode.2.type_names = splitAtZeros [] c.visited ∧
      c.Decode.2.Decode.2.type_names
        = splitAtZeros [] c.visited ++ splitAtZeros [] c.visited) ∧
    (∀ c : hkDataChunkTST1, c.readable →
      (c.Decode.2.Decode = c.Decode ↔ (0 : Byte) ∉ c.visited)) ∧
    (∀ c : hkDataChunkSDKV, c.Decode.2.Decode = c.Decode) ∧
    (∀ (c : hkDataChunkSDKV) (previous : List Byte),
      ({ c with sdk_version := previous } : hkDataChunkSDKV).Decode.1 = c.Decode.1 ∧
      (c.Decode.1 = Outcome.returned true →
        ({ c with sdk_version := previous } : hkDataChunkSDKV).Decode.2 = c.Decode.2)) ∧
    (∀ (c : hkDataChunkSDKV) (s previous : List Byte),
      Util.readStringFromBuffer c._buffer 8 c.GetActualDataSize = some s →
      ({ c with sdk_version := previous } : hkDataChunkSDKV).Decode
        = (Outcome.returned true, { c with sdk_version := s })) ∧
    (∀ (c : hkDataChunkSDKV) (buf previous : List Byte),
      c._buffer = some buf → 8 ≤ c.data_size → c.data_size < 2 ^ 16 →
      c.data_size ≤ buf.length →
      ({ c with sdk_version := previous } : hkDataChunkSDKV).Decode
        = (Outcome.returned true,
            { c with sdk_version :=
                ((buf.drop 8).take (c.data_size - 8)).takeWhile (fun b => b ≠ 0) }) ∧
      ({ c with sdk_version := previous } : hkDataChunkSDKV).Decode.2.Decode
        = (Outcome.returned true,
            { c with sdk_version :=
                ((buf.drop 8).take (c.data_size - 8)).takeWhile (fun b => b ≠ 0) })) := by
  have hoverwrite : ∀ (c : hkDataChunkSDKV) (s previous : List Byte),
      Util.readStringFromBuffer c._buffer 8 c.GetActualDataSize = some s →
      ({ c with sdk_version := previous } : hkDataChunkSDKV).Decode
        = (Outcome.returned true, { c with sdk_version := s }) := by
    intro c s previous hscan
    simp [hkDataChunkSDKV.Decode, hscan]
  refine ⟨?_, tst1_decode_twice, ?_, ?_, sdkv_decode_twice, sdkv_decode_overwrites,
    hoverwrite, ?_⟩
  · intro c
    exact DecodeLoop_prefix c._buffer c.GetBufferSize c.GetBufferSize 8 [] c.type_names
  · intro c hread hfresh
    rw [tst1_decode_twice c hread, tst1_decode_of_readable c hread, hfresh]
    simp
  · intro c hread
    rw [tst1_decode_twice c hread, tst1_decode_of_readable c hread,
      ← splitAtZeros_eq_nil_iff c.visited []]
    constructor
    · intro h
      have h' := congrArg (fun r => r.2.type_names) h
      simpa using h'
    · intro h
      simp [h]
  · intro c buf previous hbuf h8 h16 hlen
    have hscan : Util.readStringFromBuffer c._buffer 8 c.GetActualDataSize
        = some (((buf.drop 8).take (c.data_size - 8)).takeWhile (fun b => b ≠ 0)) := by
      rw [hbuf]
      exact readStringFromBuffer_of_buffer c.tohkDataChunkTAG0 buf h8 h16 hlen
    have hfirst := hoverwrite c _ previous hscan
    refine ⟨hfirst, ?_⟩
    rw [hfirst]
    exact hoverwrite c _ _ hscan

/-- C14 on the sample chunks. The TST1 chunk is fresh and decoding it twice gives
`["Foo", "Bar", "Foo", "Bar"]`. The SDKV chunk, holding `"old"` before the
call, returns `true` with `sdk_version` equal to `"20210101"`, and so does a
second call. -/
theorem decode_append_vs_overwrite_witness :
    sampleTST1.readable ∧ sampleTST1.type_names = [] ∧
    sampleTST1.Decode.2.Decode.2.type_names
      = [[70, 111, 111], [66, 97, 114], [70, 111, 111], [66, 97, 114]] ∧
    sampleTST1.Decode.2.Decode.1 = Outcome.returned true ∧
    ({ sampleSDKV with sdk_version := [111, 108, 100] } : hkDataChunkSDKV).Decode
      = (Outcome.returned true,
          { sampleSDKV with sdk_version := [50, 48, 50, 49, 48, 49, 48, 49] }) ∧
    ({ sampleSDKV with sdk_version := [111, 108, 100] } : hkDataChunkSDKV).Decode.2.Decode
      = (Outcome.returned true,
          { sampleSDKV with sdk_version := [50, 48, 50, 49, 48, 49, 48, 49] }) ∧
    ({ sampleSDKV with sdk_version := [111, 108, 100] } : hkDataChunkSDKV).Decode.2.sdk_version
      = [50, 48, 50, 49, 48, 49, 48, 49] :=
  ⟨Or.inr ⟨_, rfl, by decide⟩, rfl,
   ((decode_append_vs_overwrite.2.2.1 sampleTST1 (Or.inr ⟨_, rfl, by decide⟩) rfl).2).trans
     (by decide),
   by decide,
   (decode_append_vs_overwrite.2.2.2.2.2.2.2 sampleSDKV
      [0x40, 0, 0, 16, 83, 68, 75, 86, 50, 48, 50, 49, 48, 49, 48, 49] [111, 108, 100]
      rfl (by decide) (by decide) (by decide)).1,
   (decode_append_vs_overwrite.2.2.2.2.2.2.2 sampleSDKV
      [0x40, 0, 0, 16, 83, 68, 75, 86, 50, 48, 50, 49, 48, 49, 48, 49] [111, 108, 100]
      rfl (by decide) (by decide) (by decide)).2,
   by decide⟩

/-- C15, the claim as stated fails: a TST1 chunk that was given a 16-byte buffer
and then released has a null buffer and the buffer size 16; its `Decode()` reads
`_buffer[8]` through the null pointer and does not return `true`. -/
theorem decode_after_release_faults :
    releasedTST1._buffer = none ∧ releasedTST1._buffer_size = 16 ∧
    (hkDataChunkBase.node 0 (.TST1 releasedTST1) []).Decode.1 = Outcome.fault ∧
    (hkDataChunkBase.node 0 (.TST1 releasedTST1) []).Decode.1 ≠ Outcome.returned true := by
  decide

/-- C15, amended: the kind-specific `Decode()` never returns `false` and never
throws: in every state of a chunk of any kind it returns `true` or runs into a
read outside its buffer. For the 12 kinds other than SDKV and TST1 it returns
`true` and leaves every member of the chunk, its children included, unchanged
in every state. `hkDataChunkTST1::Decode()` returns `true` in every state in
which the buffer size is 8 or less or the buffer holds at least that many
bytes; `hkDataChunkSDKV::Decode()` returns `true` in every state in which the
scan of `Util::readStringFromBuffer` stays inside the buffer, as it does when
`data_size` (a `uint16_t`) is at least 8 and the buffer holds at least
`data_size` bytes. -/
theorem decode_never_false :
    (∀ t : hkDataChunkBase,
      t.Decode.1 = Outcome.returned true ∨ t.Decode.1 = Outcome.fault) ∧
    (∀ t : hkDataChunkBase, t.object.cls ≠ ChunkClass.hkDataChunkSDKV →
      t.object.cls ≠ ChunkClass.hkDataChunkTST1 → t.Decode = (Outcome.returned true, t)) ∧
    (∀ (self : Nat) (c : hkDataChunkTST1) (children : List hkDataChunkBase), c.readable →
      (hkDataChunkBase.node self (.TST1 c) children).Decode.1 = Outcome.returned true) ∧
    (∀ (self : Nat) (c : hkDataChunkSDKV) (children : List hkDataChunkBase),
      (Util.readStringFromBuffer c._buffer 8 c.GetActualDataSize).isSome = true →
      (hkDataChunkBase.node self (.SDKV c) children).Decode.1 = Outcome.returned true) ∧
    (∀ (c : hkDataChunkSDKV) (buf : List Byte), c._buffer = some buf → 8 ≤ c.data_size →
      c.data_size < 2 ^ 16 → c.data_size ≤ buf.length →
      (Util.readStringFromBuffer c._buffer 8 c.GetActualDataSize).isSome = true) := by
  refine ⟨?_, ?_, ?_, ?_, ?_⟩
  · intro t
    cases t with
    | node self object children => exact object_decode_outcome object
  · intro t hsdkv htst1
    cases t with
    | node self object children =>
      cases object <;>
        first
        | exact absurd rfl hsdkv
        | exact absurd rfl htst1
        | rfl
  · intro self c children hread
    simp [hkDataChunkBase.Decode, ChunkObject.Decode, tst1_decode_of_readable c hread]
  · intro self c children hscan
    simp only [hkDataChunkBase.Decode, ChunkObject.Decode, hkDataChunkSDKV.Decode]
    cases h : Util.readStringFromBuffer c._buffer 8 c.GetActualDataSize with
    | none => rw [h] at hscan; simp at hscan
    | some s => simp [h]
  · intro c buf hbuf h8 h16 hlen
    rw [hbuf, readStringFromBuffer_of_buffer c.tohkDataChunkTAG0 buf h8 h16 hlen]
    rfl

/-- C15 amended, on the sample tree and the sample TST1 chunk: the DATA chunk of
the tree decodes to itself, and the sample TST1 chunk, whose buffer is
readable, returns `true`. -/
theorem decode_never_false_witness :
    (hkDataChunkBase.node 2 (.DATA {}) [.node 3 (.TST1 {}) []]).Decode
      = (Outcome.returned true, .node 2 (.DATA {}) [.node 3 (.TST1 {}) []]) ∧
    sampleTST1.readable ∧
    (hkDataChunkBase.node 3 (.TST1 sampleTST1) []).Decode.1 = Outcome.returned true :=
  ⟨decode_never_false.2.1 (.node 2 (.DATA {}) [.node 3 (.TST1 {}) []]) (by decide) (by decide),
   Or.inr ⟨_, rfl, by decide⟩,
   decode_never_false.2.2.1 3 sampleTST1 [] (Or.inr ⟨_, rfl, by decide⟩)⟩

end hkphysics
